import Mathlib

/-!
# Verification of the beach-volleyball rating and standings engines

This file shallowly embeds the rating/standings core of the repository:

* `src/modules/elo.js` — the Elo rating engine (`Elo` namespace below);
* the tournament UI module with the Italian-points standings
  (`TournamentUI` namespace): `getGender`, `getItalianPoints`,
  `calculateStandings`;
* the basic standings variant from `src/modules/tournamentUI.js`
  (`BasicUI` namespace);
* the import script's gender heuristic (`ImportScript` namespace) and the
  server database module's `getItalianPoints` (`Db` namespace).

Modelling conventions:

* JavaScript numbers are idealized as exact rationals (`ℚ`) where the
  program stores them, and the transcendental Elo expectation
  `1 / (1 + 10 ^ ((o - p) / 400))` is embedded over `ℝ` with real
  exponentiation; `Math.round` is Mathlib's `round` (both round half up).
* A JavaScript `Map` (and a plain object used as a dictionary with
  non-numeric string keys) is an insertion-ordered association list;
  `Map.set` overwrites in place, `Map.get` returns an `Option`.
* `x || d` on a number read from a map treats `undefined` and `0` as
  falsy; this is modelled faithfully by `jsNumOr` / `jsNatOr`.
* `Array.prototype.sort` with a consistent comparator is a stable sort;
  it is modelled by `List.insertionSort`, which is stable and produces
  the unique sorted permutation preserving the relative order of
  equivalent elements.
* JavaScript strings (sequences of UTF-16 units; all characters in play
  are BMP) are modelled as `List Char` where the code inspects their
  contents, and as `String` where only equality is used.
-/

/-! ## JavaScript-style primitives -/

/-- `Map.get` on an insertion-ordered association list: the value at the
first (and, by the engines' usage, only) occurrence of the key. -/
def jsMapGet {α : Type} : List (String × α) → String → Option α
  | [], _ => none
  | q :: m, k => if q.1 == k then some q.2 else jsMapGet m k

/-- `Map.has`. -/
def jsMapHas {α : Type} (m : List (String × α)) (k : String) : Bool :=
  (jsMapGet m k).isSome

/-- `Map.set`: overwrite in place if the key is present, else append. -/
def jsMapSet {α : Type} : List (String × α) → String → α → List (String × α)
  | [], k, v => [(k, v)]
  | q :: m, k, v => if q.1 == k then (k, v) :: m else q :: jsMapSet m k v

/-- JS `x || d` where `x` is a number read from a map:
`undefined` (i.e. `none`) and `0` are falsy. -/
def jsNumOr (v : Option ℚ) (d : ℚ) : ℚ :=
  match v with
  | none => d
  | some x => if x = 0 then d else x

/-- JS `x || d` on a natural-valued map read. -/
def jsNatOr (v : Option ℕ) (d : ℕ) : ℕ :=
  match v with
  | none => d
  | some x => if x = 0 then d else x

/-! ## The shared match record (§3 of the spec) -/

/-- A normalized match record: two teams of two player identifiers,
a score pair, and the derived winner tag (1 or 2). -/
structure MatchRec where
  id : String
  date : String
  team1 : String × String
  team2 : String × String
  score : ℕ × ℕ
  winner : ℕ
deriving DecidableEq

/-- The four participants of a match, in the order the code visits them:
`[...match.team1, ...match.team2]`. -/
def MatchRec.participants (m : MatchRec) : List String :=
  [m.team1.1, m.team1.2, m.team2.1, m.team2.2]

/-- Data-model precondition (§3): each team is a pair of distinct players
and no player appears on both teams. -/
def MatchRec.wellFormed (m : MatchRec) : Prop :=
  m.participants.Nodup

instance (m : MatchRec) : Decidable m.wellFormed :=
  inferInstanceAs (Decidable m.participants.Nodup)

/-! ## Elo rating engine (`src/modules/elo.js`) -/

def Elo.INITIAL_RATING : ℚ := 1500

def Elo.K_FACTOR_DEFAULT : ℤ := 32

def Elo.K_FACTOR_CALIBRATION : ℤ := 40

def Elo.CALIBRATION_GAMES : ℕ := 15

/-- `getKFactor`: 40 while `gamesPlayed < CALIBRATION_GAMES`, else 32. -/
def Elo.getKFactor (gamesPlayed : ℕ) : ℤ :=
  if gamesPlayed < Elo.CALIBRATION_GAMES then Elo.K_FACTOR_CALIBRATION
  else Elo.K_FACTOR_DEFAULT

/-- `calculateExpectedScore`: `E = 1 / (1 + 10 ^ ((R_opp - R_player) / 400))`. -/
noncomputable def Elo.calculateExpectedScore (playerRating opponentRating : ℚ) : ℝ :=
  1 / (1 + (10 : ℝ) ^ (((opponentRating : ℝ) - (playerRating : ℝ)) / 400))

/-- `calculateRatingChange`: `ΔR = round(K * (S - E))`. -/
noncomputable def Elo.calculateRatingChange (playerRating opponentTeamRating : ℚ)
    (isWinner : Bool) (gamesPlayed : ℕ) : ℤ :=
  round ((Elo.getKFactor gamesPlayed : ℝ) *
    ((if isWinner then (1 : ℝ) else 0) -
      Elo.calculateExpectedScore playerRating opponentTeamRating))

/-- `calculateTeamRating`: the average of the two players' ratings. -/
def Elo.calculateTeamRating (rating1 rating2 : ℚ) : ℚ :=
  (rating1 + rating2) / 2

/-- `processMatch`, parameterized by the rating-change kernel so that the
match-processing structure can be reasoned about independently of the
real-valued Elo formula.  The body mirrors the source line by line. -/
def Elo.processMatchWith (kern : ℚ → ℚ → Bool → ℕ → ℤ) (m : MatchRec)
    (playerRatings : List (String × ℚ)) (playerGames : List (String × ℕ)) :
    List (String × ℤ) :=
  let team1Player1Rating := jsNumOr (jsMapGet playerRatings m.team1.1) Elo.INITIAL_RATING
  let team1Player2Rating := jsNumOr (jsMapGet playerRatings m.team1.2) Elo.INITIAL_RATING
  let team2Player1Rating := jsNumOr (jsMapGet playerRatings m.team2.1) Elo.INITIAL_RATING
  let team2Player2Rating := jsNumOr (jsMapGet playerRatings m.team2.2) Elo.INITIAL_RATING
  let team1AvgRating := Elo.calculateTeamRating team1Player1Rating team1Player2Rating
  let team2AvgRating := Elo.calculateTeamRating team2Player1Rating team2Player2Rating
  let team1Won := m.winner == 1
  let c1 := jsMapSet [] m.team1.1
    (kern team1Player1Rating team2AvgRating team1Won (jsNatOr (jsMapGet playerGames m.team1.1) 0))
  let c2 := jsMapSet c1 m.team1.2
    (kern team1Player2Rating team2AvgRating team1Won (jsNatOr (jsMapGet playerGames m.team1.2) 0))
  let c3 := jsMapSet c2 m.team2.1
    (kern team2Player1Rating team1AvgRating (!team1Won) (jsNatOr (jsMapGet playerGames m.team2.1) 0))
  jsMapSet c3 m.team2.2
    (kern team2Player2Rating team1AvgRating (!team1Won) (jsNatOr (jsMapGet playerGames m.team2.2) 0))

/-- `processMatch` of the source: the structure above instantiated with the
real Elo rating-change formula. -/
noncomputable def Elo.processMatch : MatchRec → List (String × ℚ) →
    List (String × ℕ) → List (String × ℤ) :=
  Elo.processMatchWith Elo.calculateRatingChange

/-- One entry of a player's rating history. -/
structure Elo.HistoryEntry where
  date : String
  rating : ℚ
  matchId : Option String
  change : ℤ
deriving DecidableEq

/-- A processed match: the input match spread together with the
`ratingChanges` map. -/
structure Elo.ProcessedMatch where
  base : MatchRec
  ratingChanges : List (String × ℤ)
deriving DecidableEq

/-- The engine's running state: the three player maps and the list of
processed matches, all insertion-ordered. -/
structure Elo.EloState where
  playerRatings : List (String × ℚ)
  playerGames : List (String × ℕ)
  playerHistory : List (String × List Elo.HistoryEntry)
  processedMatches : List Elo.ProcessedMatch
deriving DecidableEq

/-- The initialization step for one player id: if unseen, seed rating 1500,
games 0 and the synthetic initial history snapshot. -/
def Elo.initPlayer (date : String) (st : Elo.EloState) (playerId : String) :
    Elo.EloState :=
  if jsMapHas st.playerRatings playerId then st
  else
    { st with
      playerRatings := jsMapSet st.playerRatings playerId Elo.INITIAL_RATING
      playerGames := jsMapSet st.playerGames playerId 0
      playerHistory := jsMapSet st.playerHistory playerId
        [{ date := date, rating := Elo.INITIAL_RATING, matchId := none, change := 0 }] }

/-- The initialization pass of `processAllMatches` over one match. -/
def Elo.initMatchPlayers (st : Elo.EloState) (m : MatchRec) : Elo.EloState :=
  m.participants.foldl (Elo.initPlayer m.date) st

/-- The initialization pass of `processAllMatches` over the whole list. -/
def Elo.initState (ms : List MatchRec) : Elo.EloState :=
  ms.foldl Elo.initMatchPlayers
    { playerRatings := [], playerGames := [], playerHistory := [], processedMatches := [] }

/-- Applying one `(playerId, change)` entry of the `ratingChanges` object:
add the change to the stored rating, increment games, push a history row. -/
def Elo.applyChange (date : String) (matchId : String) (st : Elo.EloState)
    (pc : String × ℤ) : Elo.EloState :=
  let newRating := (jsMapGet st.playerRatings pc.1).getD 0 + pc.2
  { st with
    playerRatings := jsMapSet st.playerRatings pc.1 newRating
    playerGames := jsMapSet st.playerGames pc.1
      (jsNatOr (jsMapGet st.playerGames pc.1) 0 + 1)
    playerHistory := jsMapSet st.playerHistory pc.1
      ((jsMapGet st.playerHistory pc.1).getD [] ++
        [{ date := date, rating := newRating, matchId := some matchId, change := pc.2 }]) }

/-- The per-match step of `processAllMatches`: compute all rating changes
from the current state, then apply them and record the processed match. -/
def Elo.processMatchesStepWith (kern : ℚ → ℚ → Bool → ℕ → ℤ)
    (st : Elo.EloState) (m : MatchRec) : Elo.EloState :=
  let ratingChanges := Elo.processMatchWith kern m st.playerRatings st.playerGames
  let st1 := ratingChanges.foldl (Elo.applyChange m.date m.id) st
  { st1 with processedMatches := st1.processedMatches ++ [{ base := m, ratingChanges := ratingChanges }] }

noncomputable def Elo.processMatchesStep : Elo.EloState → MatchRec → Elo.EloState :=
  Elo.processMatchesStepWith Elo.calculateRatingChange

/-- The engine state after initialization and the first `k` matches. -/
def Elo.stateAfterWith (kern : ℚ → ℚ → Bool → ℕ → ℤ)
    (ms : List MatchRec) (k : ℕ) : Elo.EloState :=
  (ms.take k).foldl (Elo.processMatchesStepWith kern) (Elo.initState ms)

noncomputable def Elo.stateAfter (ms : List MatchRec) (k : ℕ) : Elo.EloState :=
  Elo.stateAfterWith Elo.calculateRatingChange ms k

/-- One record of the output players array. -/
structure Elo.PlayerResult where
  id : String
  name : String
  currentRating : ℚ
  gamesPlayed : ℕ
  isCalibrated : Bool
  ratingHistory : List Elo.HistoryEntry
  lastChange : ℤ
deriving DecidableEq

/-- Building the players array from the final state, iterating the ratings
map in insertion order. -/
def Elo.buildPlayers (st : Elo.EloState) : List Elo.PlayerResult :=
  st.playerRatings.map (fun pr =>
    let gamesPlayed := (jsMapGet st.playerGames pr.1).getD 0
    let history := (jsMapGet st.playerHistory pr.1).getD []
    let lastChange :=
      if history.length > 1 then
        (history.getLastD { date := "", rating := 0, matchId := none, change := 0 }).change
      else 0
    { id := pr.1, name := pr.1, currentRating := pr.2, gamesPlayed := gamesPlayed,
      isCalibrated := decide (gamesPlayed ≥ Elo.CALIBRATION_GAMES),
      ratingHistory := history, lastChange := lastChange })

/-- The output of `processAllMatches`: `{ players, matches: processedMatches }`.
(`matches` is a Lean keyword, so the field keeps the name of the variable it
carries in the source, `processedMatches`.) -/
structure Elo.EloResult where
  players : List Elo.PlayerResult
  processedMatches : List Elo.ProcessedMatch
deriving DecidableEq

/-- The final sort: `players.sort((a, b) => b.currentRating - a.currentRating)`,
i.e. the stable sort for the relation `b.currentRating ≤ a.currentRating`. -/
def Elo.playersOrder (a b : Elo.PlayerResult) : Prop :=
  b.currentRating ≤ a.currentRating

instance : DecidableRel Elo.playersOrder := fun a b =>
  inferInstanceAs (Decidable (b.currentRating ≤ a.currentRating))

def Elo.processAllMatchesWith (kern : ℚ → ℚ → Bool → ℕ → ℤ)
    (ms : List MatchRec) : Elo.EloResult :=
  let final := Elo.stateAfterWith kern ms ms.length
  { players := List.insertionSort Elo.playersOrder (Elo.buildPlayers final)
    processedMatches := final.processedMatches }

/-- `processAllMatches` of the source. -/
noncomputable def Elo.processAllMatches : List MatchRec → Elo.EloResult :=
  Elo.processAllMatchesWith Elo.calculateRatingChange

/-! ## Italian points (`getItalianPoints`, UI and server copies) -/

/-- `getItalianPoints` of the tournament UI module: 2 for a win by exactly
2, 3 for any other win, 1 for a loss by exactly 2, 0 for any other loss. -/
def TournamentUI.getItalianPoints (myScore opponentScore : ℕ) : ℕ :=
  let diff := ((myScore : ℤ) - (opponentScore : ℤ)).natAbs
  let isBalanced := diff == 2
  if opponentScore < myScore then (if isBalanced then 2 else 3)
  else (if isBalanced then 1 else 0)

/-- `getItalianPoints` of the server database module: identical except for
an explicit draw guard returning 0. -/
def Db.getItalianPoints (myScore oppScore : ℕ) : ℕ :=
  if myScore == oppScore then 0
  else
    let diff := ((myScore : ℤ) - (oppScore : ℤ)).natAbs
    let isBalanced := diff == 2
    if oppScore < myScore then (if isBalanced then 2 else 3)
    else (if isBalanced then 1 else 0)

/-! ## Claim C4: the K-factor calibration boundary -/

/-- C4: `getKFactor` returns 40 for games-played in `[0, 14]` and 32 from
15 on; in particular 40 at 14 and 32 at 15. -/
theorem c4_kfactor_boundary :
    (∀ gamesPlayed : ℕ,
      Elo.getKFactor gamesPlayed = if gamesPlayed < 15 then 40 else 32) ∧
    Elo.getKFactor 14 = 40 ∧ Elo.getKFactor 15 = 32 := by
  refine ⟨fun g => ?_, by decide, by decide⟩
  simp [Elo.getKFactor, Elo.CALIBRATION_GAMES, Elo.K_FACTOR_CALIBRATION,
    Elo.K_FACTOR_DEFAULT]

/-! ## Claim C1: the Italian points table -/

/-- C1: for unequal non-negative scores, both copies of the Italian points
function realize the 3/2/1/0 table with the margin-of-2 special case. -/
theorem c1_italian_points_table (my opp : ℕ) (h : my ≠ opp) :
    ((opp < my ∧ ((my : ℤ) - opp).natAbs = 2) →
        TournamentUI.getItalianPoints my opp = 2 ∧ Db.getItalianPoints my opp = 2) ∧
    ((opp < my ∧ ((my : ℤ) - opp).natAbs ≠ 2) →
        TournamentUI.getItalianPoints my opp = 3 ∧ Db.getItalianPoints my opp = 3) ∧
    ((my < opp ∧ ((my : ℤ) - opp).natAbs = 2) →
        TournamentUI.getItalianPoints my opp = 1 ∧ Db.getItalianPoints my opp = 1) ∧
    ((my < opp ∧ ((my : ℤ) - opp).natAbs ≠ 2) →
        TournamentUI.getItalianPoints my opp = 0 ∧ Db.getItalianPoints my opp = 0) := by
  have hbeq : (my == opp) = false := beq_eq_false_iff_ne.mpr h
  refine ⟨?_, ?_, ?_, ?_⟩
  · rintro ⟨h1, h2⟩
    simp [TournamentUI.getItalianPoints, Db.getItalianPoints, hbeq, h1, h2]
  · rintro ⟨h1, h2⟩
    simp [TournamentUI.getItalianPoints, Db.getItalianPoints, hbeq, h1, h2]
  · rintro ⟨h1, h2⟩
    have h3 : ¬ (opp < my) := by omega
    simp [TournamentUI.getItalianPoints, Db.getItalianPoints, hbeq, h3, h2]
  · rintro ⟨h1, h2⟩
    have h3 : ¬ (opp < my) := by omega
    simp [TournamentUI.getItalianPoints, Db.getItalianPoints, hbeq, h3, h2]

/-- Witness for C1 at the spec's example scores 15:13 (a win by exactly 2). -/
theorem c1_italian_points_table_witness :
    TournamentUI.getItalianPoints 15 13 = 2 ∧ Db.getItalianPoints 15 13 = 2 :=
  (c1_italian_points_table 15 13 (by decide)).1 ⟨by decide, by decide⟩

/-! ## Exact evaluation of the Elo kernel at equal ratings -/

/-- At equal player and opponent-team ratings the Elo expectation is
exactly `1/2`. -/
lemma Elo.calculateExpectedScore_self (r : ℚ) :
    Elo.calculateExpectedScore r r = 1 / 2 := by
  unfold Elo.calculateExpectedScore
  rw [show ((r : ℝ) - (r : ℝ)) / 400 = 0 by ring, Real.rpow_zero]
  norm_num

/-- At equal ratings the rating change is exactly `±K/2`: `±20` during
calibration and `±16` afterwards. -/
lemma Elo.calculateRatingChange_self (r : ℚ) (w : Bool) (g : ℕ) :
    Elo.calculateRatingChange r r w g =
      if w then (if g < 15 then 20 else 16)
      else (if g < 15 then -20 else -16) := by
  have hround : ∀ (x : ℝ) (n : ℤ), x = (n : ℝ) → round x = n := by
    intro x n hx
    rw [hx, round_intCast]
  unfold Elo.calculateRatingChange
  rw [Elo.calculateExpectedScore_self]
  by_cases hg : g < 15 <;> cases w <;>
    simp only [Elo.getKFactor, Elo.CALIBRATION_GAMES, Elo.K_FACTOR_CALIBRATION,
      Elo.K_FACTOR_DEFAULT, hg, if_true, if_false, ite_true, ite_false,
      Bool.false_eq_true, Bool.true_eq_false] <;>
    apply hround <;> push_cast <;> norm_num

/-! ## Claim C2: the end-to-end single-match scenario -/

/-- The spec's end-to-end scenario match: `[A, B]` beat `[C, D]` 21:15. -/
def exampleMatch : MatchRec :=
  { id := "m1", date := "2025-01-25", team1 := ("A", "B"), team2 := ("C", "D"),
    score := (21, 15), winner := 1 }

/-! ### Association-list lemmas for the JS map model -/

lemma jsMapGet_set_self {α : Type} (m : List (String × α)) (k : String) (v : α) :
    jsMapGet (jsMapSet m k v) k = some v := by
  induction m with
  | nil => simp [jsMapSet, jsMapGet]
  | cons q m ih =>
    by_cases hq : (q.1 == k) = true
    · simp [jsMapSet, jsMapGet, hq]
    · simp [jsMapSet, jsMapGet, hq, ih]

lemma jsMapGet_set_ne {α : Type} (m : List (String × α)) (k k' : String) (v : α)
    (h : k' ≠ k) : jsMapGet (jsMapSet m k v) k' = jsMapGet m k' := by
  have hbeq : (k == k') = false := beq_eq_false_iff_ne.mpr (fun e => h e.symm)
  induction m with
  | nil => simp [jsMapSet, jsMapGet, hbeq]
  | cons q m ih =>
    by_cases hq : (q.1 == k) = true
    · have hq1 : q.1 = k := by simpa using hq
      simp [jsMapSet, jsMapGet, hq, hbeq, hq1]
    · simp [jsMapSet, jsMapGet, hq, ih]

lemma jsMapHas_set {α : Type} (m : List (String × α)) (k k' : String) (v : α) :
    jsMapHas (jsMapSet m k v) k' = (k == k' || jsMapHas m k') := by
  by_cases h : k' = k
  · subst h
    rw [jsMapHas, jsMapGet_set_self]
    simp
  · rw [jsMapHas, jsMapGet_set_ne m k k' v h, jsMapHas]
    have : (k == k') = false := beq_eq_false_iff_ne.mpr (fun e => h e.symm)
    simp [this]

/-! ### The changes object of a well-formed match -/

/-- For a well-formed match the `ratingChanges` object has exactly the four
participants as keys, in visit order, each change computed from the frozen
pre-match rating and games maps. -/
lemma Elo.processMatchWith_eval (kern : ℚ → ℚ → Bool → ℕ → ℤ) (m : MatchRec)
    (rs : List (String × ℚ)) (gs : List (String × ℕ)) (hwf : m.wellFormed) :
    Elo.processMatchWith kern m rs gs =
      [(m.team1.1, kern (jsNumOr (jsMapGet rs m.team1.1) Elo.INITIAL_RATING)
          (Elo.calculateTeamRating (jsNumOr (jsMapGet rs m.team2.1) Elo.INITIAL_RATING)
            (jsNumOr (jsMapGet rs m.team2.2) Elo.INITIAL_RATING))
          (m.winner == 1) (jsNatOr (jsMapGet gs m.team1.1) 0)),
       (m.team1.2, kern (jsNumOr (jsMapGet rs m.team1.2) Elo.INITIAL_RATING)
          (Elo.calculateTeamRating (jsNumOr (jsMapGet rs m.team2.1) Elo.INITIAL_RATING)
            (jsNumOr (jsMapGet rs m.team2.2) Elo.INITIAL_RATING))
          (m.winner == 1) (jsNatOr (jsMapGet gs m.team1.2) 0)),
       (m.team2.1, kern (jsNumOr (jsMapGet rs m.team2.1) Elo.INITIAL_RATING)
          (Elo.calculateTeamRating (jsNumOr (jsMapGet rs m.team1.1) Elo.INITIAL_RATING)
            (jsNumOr (jsMapGet rs m.team1.2) Elo.INITIAL_RATING))
          (!(m.winner == 1)) (jsNatOr (jsMapGet gs m.team2.1) 0)),
       (m.team2.2, kern (jsNumOr (jsMapGet rs m.team2.2) Elo.INITIAL_RATING)
          (Elo.calculateTeamRating (jsNumOr (jsMapGet rs m.team1.1) Elo.INITIAL_RATING)
            (jsNumOr (jsMapGet rs m.team1.2) Elo.INITIAL_RATING))
          (!(m.winner == 1)) (jsNatOr (jsMapGet gs m.team2.2) 0))] := by
  have hab : m.team1.1 ≠ m.team1.2 := by
    simp [MatchRec.wellFormed, MatchRec.participants] at hwf
    tauto
  have hac : m.team1.1 ≠ m.team2.1 := by
    simp [MatchRec.wellFormed, MatchRec.participants] at hwf
    tauto
  have had : m.team1.1 ≠ m.team2.2 := by
    simp [MatchRec.wellFormed, MatchRec.participants] at hwf
    tauto
  have hbc : m.team1.2 ≠ m.team2.1 := by
    simp [MatchRec.wellFormed, MatchRec.participants] at hwf
    tauto
  have hbd : m.team1.2 ≠ m.team2.2 := by
    simp [MatchRec.wellFormed, MatchRec.participants] at hwf
    tauto
  have hcd : m.team2.1 ≠ m.team2.2 := by
    simp [MatchRec.wellFormed, MatchRec.participants] at hwf
    tauto
  simp only [Elo.processMatchWith]
  simp [jsMapSet, beq_eq_false_iff_ne.mpr hab, beq_eq_false_iff_ne.mpr hac,
    beq_eq_false_iff_ne.mpr had, beq_eq_false_iff_ne.mpr hbc,
    beq_eq_false_iff_ne.mpr hbd, beq_eq_false_iff_ne.mpr hcd]

/-! ## Claim C2: the end-to-end single-match scenario -/

/-- The engine state after processing the single example match. -/
lemma stateAfter_exampleMatch :
    Elo.stateAfterWith Elo.calculateRatingChange [exampleMatch] 1 =
      { playerRatings := [("A", 1520), ("B", 1520), ("C", 1480), ("D", 1480)]
        playerGames := [("A", 1), ("B", 1), ("C", 1), ("D", 1)]
        playerHistory :=
          [("A", [{ date := "2025-01-25", rating := 1500, matchId := none, change := 0 },
                  { date := "2025-01-25", rating := 1520, matchId := some "m1", change := 20 }]),
           ("B", [{ date := "2025-01-25", rating := 1500, matchId := none, change := 0 },
                  { date := "2025-01-25", rating := 1520, matchId := some "m1", change := 20 }]),
           ("C", [{ date := "2025-01-25", rating := 1500, matchId := none, change := 0 },
                  { date := "2025-01-25", rating := 1480, matchId := some "m1", change := -20 }]),
           ("D", [{ date := "2025-01-25", rating := 1500, matchId := none, change := 0 },
                  { date := "2025-01-25", rating := 1480, matchId := some "m1", change := -20 }])]
        processedMatches :=
          [{ base := exampleMatch,
             ratingChanges := [("A", 20), ("B", 20), ("C", -20), ("D", -20)] }] } := by
  have hs : Elo.stateAfterWith Elo.calculateRatingChange [exampleMatch] 1 =
      Elo.processMatchesStepWith Elo.calculateRatingChange
        (Elo.initState [exampleMatch]) exampleMatch := rfl
  rw [hs]
  have hinit : Elo.initState [exampleMatch] =
      { playerRatings := [("A", 1500), ("B", 1500), ("C", 1500), ("D", 1500)]
        playerGames := [("A", 0), ("B", 0), ("C", 0), ("D", 0)]
        playerHistory :=
          [("A", [{ date := "2025-01-25", rating := 1500, matchId := none, change := 0 }]),
           ("B", [{ date := "2025-01-25", rating := 1500, matchId := none, change := 0 }]),
           ("C", [{ date := "2025-01-25", rating := 1500, matchId := none, change := 0 }]),
           ("D", [{ date := "2025-01-25", rating := 1500, matchId := none, change := 0 }])]
        processedMatches := [] } := by decide
  rw [Elo.processMatchesStepWith,
    Elo.processMatchWith_eval Elo.calculateRatingChange exampleMatch _ _ (by decide), hinit]
  norm_num [Elo.calculateRatingChange_self, jsMapGet, jsNumOr, jsNatOr,
    Elo.calculateTeamRating, Elo.INITIAL_RATING, exampleMatch, jsMapHas, jsMapSet,
    Elo.applyChange]
  simp only [String.reduceEq, if_false, if_true, reduceIte]
  norm_num

/-- Full evaluation of `processAllMatches` on the single example match. -/
lemma processAll_exampleMatch :
    Elo.processAllMatches [exampleMatch] =
      { players :=
          [{ id := "A", name := "A", currentRating := 1520, gamesPlayed := 1,
             isCalibrated := false,
             ratingHistory :=
               [{ date := "2025-01-25", rating := 1500, matchId := none, change := 0 },
                { date := "2025-01-25", rating := 1520, matchId := some "m1", change := 20 }],
             lastChange := 20 },
           { id := "B", name := "B", currentRating := 1520, gamesPlayed := 1,
             isCalibrated := false,
             ratingHistory :=
               [{ date := "2025-01-25", rating := 1500, matchId := none, change := 0 },
                { date := "2025-01-25", rating := 1520, matchId := some "m1", change := 20 }],
             lastChange := 20 },
           { id := "C", name := "C", currentRating := 1480, gamesPlayed := 1,
             isCalibrated := false,
             ratingHistory :=
               [{ date := "2025-01-25", rating := 1500, matchId := none, change := 0 },
                { date := "2025-01-25", rating := 1480, matchId := some "m1", change := -20 }],
             lastChange := -20 },
           { id := "D", name := "D", currentRating := 1480, gamesPlayed := 1,
             isCalibrated := false,
             ratingHistory :=
               [{ date := "2025-01-25", rating := 1500, matchId := none, change := 0 },
                { date := "2025-01-25", rating := 1480, matchId := some "m1", change := -20 }],
             lastChange := -20 }]
        processedMatches :=
          [{ base := exampleMatch,
             ratingChanges := [("A", 20), ("B", 20), ("C", -20), ("D", -20)] }] } := by
  show Elo.processAllMatchesWith Elo.calculateRatingChange [exampleMatch] = _
  unfold Elo.processAllMatchesWith
  rw [show ([exampleMatch].length) = 1 from rfl, stateAfter_exampleMatch]
  simp [Elo.buildPlayers, jsMapGet, List.insertionSort, List.orderedInsert,
    Elo.playersOrder, Elo.CALIBRATION_GAMES]

/-- C2: processing the single match `[A,B]` beat `[C,D]` 21:15 with all four
players unseen records a change of `+20` for A and B and `-20` for C and D,
leaves A and B at rating 1520 and C and D at 1480, and gives every player
`gamesPlayed = 1`. -/
theorem c2_single_match_scenario :
    (Elo.processAllMatches [exampleMatch]).processedMatches.map
        (fun pm => pm.ratingChanges) =
      [[("A", 20), ("B", 20), ("C", -20), ("D", -20)]] ∧
    (Elo.processAllMatches [exampleMatch]).players.map
        (fun p => (p.id, p.currentRating, p.gamesPlayed)) =
      [("A", 1520, 1), ("B", 1520, 1), ("C", 1480, 1), ("D", 1480, 1)] := by
  rw [processAll_exampleMatch]
  decide

/-! ### Structural lemmas about the match-processing fold -/

lemma Elo.stateAfterWith_succ (kern : ℚ → ℚ → Bool → ℕ → ℤ) (ms : List MatchRec)
    (k : ℕ) (hk : k < ms.length) :
    Elo.stateAfterWith kern ms (k + 1) =
      Elo.processMatchesStepWith kern (Elo.stateAfterWith kern ms k) (ms.get ⟨k, hk⟩) := by
  unfold Elo.stateAfterWith
  rw [List.take_succ, List.getElem?_eq_getElem hk]
  rw [Option.toList_some, List.foldl_append]
  rfl

lemma Elo.applyChange_processedMatches (d i : String) (st : Elo.EloState)
    (pc : String × ℤ) :
    (Elo.applyChange d i st pc).processedMatches = st.processedMatches := rfl

lemma Elo.foldl_applyChange_processedMatches (d i : String) (st : Elo.EloState)
    (entries : List (String × ℤ)) :
    (entries.foldl (Elo.applyChange d i) st).processedMatches = st.processedMatches := by
  induction entries generalizing st with
  | nil => rfl
  | cons q entries ih => rw [List.foldl_cons, ih, Elo.applyChange_processedMatches]

lemma Elo.processMatchesStepWith_processedMatches (kern : ℚ → ℚ → Bool → ℕ → ℤ)
    (st : Elo.EloState) (m : MatchRec) :
    (Elo.processMatchesStepWith kern st m).processedMatches =
      st.processedMatches ++
        [{ base := m,
           ratingChanges := Elo.processMatchWith kern m st.playerRatings st.playerGames }] := by
  unfold Elo.processMatchesStepWith
  dsimp only
  rw [Elo.foldl_applyChange_processedMatches]

lemma Elo.initPlayer_processedMatches (d : String) (st : Elo.EloState) (p : String) :
    (Elo.initPlayer d st p).processedMatches = st.processedMatches := by
  unfold Elo.initPlayer
  split <;> rfl

lemma Elo.initState_processedMatches (ms : List MatchRec) :
    (Elo.initState ms).processedMatches = [] := by
  suffices h : ∀ st : Elo.EloState,
      (ms.foldl Elo.initMatchPlayers st).processedMatches = st.processedMatches by
    exact h _
  induction ms with
  | nil => intro st; rfl
  | cons m ms ih =>
    intro st
    rw [List.foldl_cons, ih]
    show (m.participants.foldl (Elo.initPlayer m.date) st).processedMatches = _
    generalize m.participants = ps
    induction ps generalizing st with
    | nil => rfl
    | cons p ps ihp => rw [List.foldl_cons, ihp, Elo.initPlayer_processedMatches]

lemma Elo.processedMatches_length (kern : ℚ → ℚ → Bool → ℕ → ℤ)
    (ms : List MatchRec) (k : ℕ) (hk : k ≤ ms.length) :
    (Elo.stateAfterWith kern ms k).processedMatches.length = k := by
  induction k with
  | zero =>
    show (Elo.initState ms).processedMatches.length = 0
    rw [Elo.initState_processedMatches]
    rfl
  | succ n ih =>
    have hn : n < ms.length := lt_of_lt_of_le (Nat.lt_succ_self n) hk
    rw [Elo.stateAfterWith_succ kern ms n hn,
      Elo.processMatchesStepWith_processedMatches, List.length_append,
      ih (le_of_lt hn)]
    rfl

/-- The processed match at index `k` of any later state: the input match
together with the changes computed from the state before match `k`. -/
lemma Elo.processedMatches_get (kern : ℚ → ℚ → Bool → ℕ → ℤ)
    (ms : List MatchRec) (k n : ℕ) (hk : k < n) (hn : n ≤ ms.length) :
    (Elo.stateAfterWith kern ms n).processedMatches.get? k =
      some { base := ms.get ⟨k, lt_of_lt_of_le hk hn⟩,
             ratingChanges :=
               Elo.processMatchWith kern (ms.get ⟨k, lt_of_lt_of_le hk hn⟩)
                 (Elo.stateAfterWith kern ms k).playerRatings
                 (Elo.stateAfterWith kern ms k).playerGames } := by
  induction n with
  | zero => omega
  | succ n ih =>
    have hn' : n < ms.length := lt_of_lt_of_le (Nat.lt_succ_self n) hn
    rw [Elo.stateAfterWith_succ kern ms n hn',
      Elo.processMatchesStepWith_processedMatches]
    rcases Nat.lt_or_ge k n with h | h
    · rw [List.get?_append]
      · exact ih h (le_of_lt hn')
      · rw [Elo.processedMatches_length kern ms n (le_of_lt hn')]
        exact h
    · have hkn : k = n := by omega
      subst hkn
      rw [List.get?_append_right]
      · rw [Elo.processedMatches_length kern ms k (le_of_lt hn')]
        simp
      · rw [Elo.processedMatches_length kern ms k (le_of_lt hn')]

/-! ### Effect of applying a changes object on the player maps -/

lemma Elo.applyChange_get_ne (d i : String) (st : Elo.EloState) (pc : String × ℤ)
    (p : String) (h : p ≠ pc.1) :
    jsMapGet (Elo.applyChange d i st pc).playerRatings p = jsMapGet st.playerRatings p ∧
    jsMapGet (Elo.applyChange d i st pc).playerGames p = jsMapGet st.playerGames p ∧
    jsMapGet (Elo.applyChange d i st pc).playerHistory p = jsMapGet st.playerHistory p := by
  unfold Elo.applyChange
  exact ⟨jsMapGet_set_ne _ _ _ _ h, jsMapGet_set_ne _ _ _ _ h, jsMapGet_set_ne _ _ _ _ h⟩

lemma Elo.foldl_applyChange_not_mem (d i : String) (st : Elo.EloState)
    (entries : List (String × ℤ)) (p : String)
    (hp : p ∉ entries.map Prod.fst) :
    jsMapGet ((entries.foldl (Elo.applyChange d i) st).playerRatings) p =
      jsMapGet st.playerRatings p ∧
    jsMapGet ((entries.foldl (Elo.applyChange d i) st).playerGames) p =
      jsMapGet st.playerGames p ∧
    jsMapGet ((entries.foldl (Elo.applyChange d i) st).playerHistory) p =
      jsMapGet st.playerHistory p := by
  induction entries generalizing st with
  | nil => exact ⟨rfl, rfl, rfl⟩
  | cons q entries ih =>
    have hq : p ≠ q.1 := by
      intro e
      exact hp (by simp [e])
    have hrest : p ∉ entries.map Prod.fst := by
      intro e
      exact hp (by simp [e])
    rw [List.foldl_cons]
    obtain ⟨h1, h2, h3⟩ := ih (Elo.applyChange d i st q) hrest
    obtain ⟨g1, g2, g3⟩ := Elo.applyChange_get_ne d i st q p hq
    exact ⟨h1.trans g1, h2.trans g2, h3.trans g3⟩

/-- Applying a changes object with distinct keys: the maps of a listed
player are updated exactly once, from their pre-object values. -/
lemma Elo.foldl_applyChange_mem (d i : String) (st : Elo.EloState)
    (entries : List (String × ℤ)) (p : String) (δ : ℤ)
    (hmem : (p, δ) ∈ entries) (hnd : (entries.map Prod.fst).Nodup) :
    jsMapGet ((entries.foldl (Elo.applyChange d i) st).playerRatings) p =
      some ((jsMapGet st.playerRatings p).getD 0 + δ) ∧
    jsMapGet ((entries.foldl (Elo.applyChange d i) st).playerGames) p =
      some (jsNatOr (jsMapGet st.playerGames p) 0 + 1) ∧
    jsMapGet ((entries.foldl (Elo.applyChange d i) st).playerHistory) p =
      some ((jsMapGet st.playerHistory p).getD [] ++
        [{ date := d, rating := (jsMapGet st.playerRatings p).getD 0 + δ,
           matchId := some i, change := δ }]) := by
  induction entries generalizing st with
  | nil => simp at hmem
  | cons q entries ih =>
    rcases List.mem_cons.mp hmem with hq | hq
    · subst hq
      have hrest : p ∉ entries.map Prod.fst := by
        simp only [List.map_cons, List.nodup_cons] at hnd
        exact hnd.1
      rw [List.foldl_cons]
      obtain ⟨h1, h2, h3⟩ :=
        Elo.foldl_applyChange_not_mem d i (Elo.applyChange d i st (p, δ)) entries p hrest
      refine ⟨h1.trans ?_, h2.trans ?_, h3.trans ?_⟩
      · exact jsMapGet_set_self _ _ _
      · exact jsMapGet_set_self _ _ _
      · exact jsMapGet_set_self _ _ _
    · have hq1 : p ≠ q.1 := by
        simp only [List.map_cons, List.nodup_cons] at hnd
        intro e
        apply hnd.1
        exact e ▸ List.mem_map_of_mem Prod.fst hq
      rw [List.foldl_cons]
      obtain ⟨g1, g2, g3⟩ := Elo.applyChange_get_ne d i st q p hq1
      obtain ⟨h1, h2, h3⟩ := ih (Elo.applyChange d i st q)
        (by simpa using hq) (by simp only [List.map_cons, List.nodup_cons] at hnd; exact hnd.2)
      rw [h1, h2, h3, g1, g2, g3]
      exact ⟨rfl, rfl, rfl⟩

/-! ## Claim C3: all four deltas are computed from frozen pre-match state -/

/-- The rating the engine reads for a player: the stored rating with the JS
falsy default (`undefined`, and also an exact `0`, read as 1500). -/
def Elo.usedRating (st : Elo.EloState) (p : String) : ℚ :=
  jsNumOr (jsMapGet st.playerRatings p) Elo.INITIAL_RATING

/-- The games-played count the engine reads for a player. -/
def Elo.usedGames (st : Elo.EloState) (p : String) : ℕ :=
  jsNatOr (jsMapGet st.playerGames p) 0

lemma Elo.processMatchesStepWith_playerRatings (kern : ℚ → ℚ → Bool → ℕ → ℤ)
    (st : Elo.EloState) (m : MatchRec) :
    (Elo.processMatchesStepWith kern st m).playerRatings =
      ((Elo.processMatchWith kern m st.playerRatings st.playerGames).foldl
        (Elo.applyChange m.date m.id) st).playerRatings := rfl

lemma Elo.processMatchesStepWith_playerGames (kern : ℚ → ℚ → Bool → ℕ → ℤ)
    (st : Elo.EloState) (m : MatchRec) :
    (Elo.processMatchesStepWith kern st m).playerGames =
      ((Elo.processMatchWith kern m st.playerRatings st.playerGames).foldl
        (Elo.applyChange m.date m.id) st).playerGames := rfl

lemma Elo.processMatchesStepWith_playerHistory (kern : ℚ → ℚ → Bool → ℕ → ℤ)
    (st : Elo.EloState) (m : MatchRec) :
    (Elo.processMatchesStepWith kern st m).playerHistory =
      ((Elo.processMatchWith kern m st.playerRatings st.playerGames).foldl
        (Elo.applyChange m.date m.id) st).playerHistory := rfl

/-- The keys of a well-formed match's changes object are its participants. -/
lemma Elo.processMatchWith_keys (kern : ℚ → ℚ → Bool → ℕ → ℤ) (m : MatchRec)
    (rs : List (String × ℚ)) (gs : List (String × ℕ)) (hwf : m.wellFormed) :
    (Elo.processMatchWith kern m rs gs).map Prod.fst = m.participants := by
  rw [Elo.processMatchWith_eval kern m rs gs hwf]
  rfl

/-- C3: the delta of every participant of the `k`-th match is computed by the
Elo formula from the ratings and games counts as they stood before that
match (frozen for all four players), and only afterwards is each
participant's stored rating increased by their delta and their games count
incremented by one. -/
theorem c3_frozen_prematch_state (ms : List MatchRec) (k : ℕ) (hk : k < ms.length)
    (hwf : (ms.get ⟨k, hk⟩).wellFormed) :
    (Elo.processAllMatches ms).processedMatches.get? k =
      some { base := ms.get ⟨k, hk⟩,
             ratingChanges :=
               Elo.processMatch (ms.get ⟨k, hk⟩) (Elo.stateAfter ms k).playerRatings
                 (Elo.stateAfter ms k).playerGames } ∧
    Elo.processMatch (ms.get ⟨k, hk⟩) (Elo.stateAfter ms k).playerRatings
        (Elo.stateAfter ms k).playerGames =
      [((ms.get ⟨k, hk⟩).team1.1,
        Elo.calculateRatingChange (Elo.usedRating (Elo.stateAfter ms k) (ms.get ⟨k, hk⟩).team1.1)
          (Elo.calculateTeamRating (Elo.usedRating (Elo.stateAfter ms k) (ms.get ⟨k, hk⟩).team2.1)
            (Elo.usedRating (Elo.stateAfter ms k) (ms.get ⟨k, hk⟩).team2.2))
          ((ms.get ⟨k, hk⟩).winner == 1)
          (Elo.usedGames (Elo.stateAfter ms k) (ms.get ⟨k, hk⟩).team1.1)),
       ((ms.get ⟨k, hk⟩).team1.2,
        Elo.calculateRatingChange (Elo.usedRating (Elo.stateAfter ms k) (ms.get ⟨k, hk⟩).team1.2)
          (Elo.calculateTeamRating (Elo.usedRating (Elo.stateAfter ms k) (ms.get ⟨k, hk⟩).team2.1)
            (Elo.usedRating (Elo.stateAfter ms k) (ms.get ⟨k, hk⟩).team2.2))
          ((ms.get ⟨k, hk⟩).winner == 1)
          (Elo.usedGames (Elo.stateAfter ms k) (ms.get ⟨k, hk⟩).team1.2)),
       ((ms.get ⟨k, hk⟩).team2.1,
        Elo.calculateRatingChange (Elo.usedRating (Elo.stateAfter ms k) (ms.get ⟨k, hk⟩).team2.1)
          (Elo.calculateTeamRating (Elo.usedRating (Elo.stateAfter ms k) (ms.get ⟨k, hk⟩).team1.1)
            (Elo.usedRating (Elo.stateAfter ms k) (ms.get ⟨k, hk⟩).team1.2))
          (!((ms.get ⟨k, hk⟩).winner == 1))
          (Elo.usedGames (Elo.stateAfter ms k) (ms.get ⟨k, hk⟩).team2.1)),
       ((ms.get ⟨k, hk⟩).team2.2,
        Elo.calculateRatingChange (Elo.usedRating (Elo.stateAfter ms k) (ms.get ⟨k, hk⟩).team2.2)
          (Elo.calculateTeamRating (Elo.usedRating (Elo.stateAfter ms k) (ms.get ⟨k, hk⟩).team1.1)
            (Elo.usedRating (Elo.stateAfter ms k) (ms.get ⟨k, hk⟩).team1.2))
          (!((ms.get ⟨k, hk⟩).winner == 1))
          (Elo.usedGames (Elo.stateAfter ms k) (ms.get ⟨k, hk⟩).team2.2))] ∧
    (∀ p δ,
      (p, δ) ∈ Elo.processMatch (ms.get ⟨k, hk⟩) (Elo.stateAfter ms k).playerRatings
          (Elo.stateAfter ms k).playerGames →
        jsMapGet (Elo.stateAfter ms (k + 1)).playerRatings p =
          some ((jsMapGet (Elo.stateAfter ms k).playerRatings p).getD 0 + δ) ∧
        jsMapGet (Elo.stateAfter ms (k + 1)).playerGames p =
          some (Elo.usedGames (Elo.stateAfter ms k) p + 1)) := by
  refine ⟨?_, ?_, ?_⟩
  · show (Elo.stateAfterWith Elo.calculateRatingChange ms ms.length).processedMatches.get? k = _
    exact Elo.processedMatches_get Elo.calculateRatingChange ms k ms.length hk (le_refl _)
  · show Elo.processMatchWith Elo.calculateRatingChange _ _ _ = _
    rw [Elo.processMatchWith_eval _ _ _ _ hwf]
    rfl
  · intro p δ hmem
    have hnd : ((Elo.processMatch (ms.get ⟨k, hk⟩) (Elo.stateAfter ms k).playerRatings
        (Elo.stateAfter ms k).playerGames).map Prod.fst).Nodup := by
      show ((Elo.processMatchWith Elo.calculateRatingChange _ _ _).map Prod.fst).Nodup
      rw [Elo.processMatchWith_keys _ _ _ _ hwf]
      exact hwf
    have hsucc := Elo.stateAfterWith_succ Elo.calculateRatingChange ms k hk
    have hmem' := Elo.foldl_applyChange_mem (ms.get ⟨k, hk⟩).date (ms.get ⟨k, hk⟩).id
      (Elo.stateAfter ms k) (Elo.processMatch (ms.get ⟨k, hk⟩)
        (Elo.stateAfter ms k).playerRatings (Elo.stateAfter ms k).playerGames) p δ hmem hnd
    constructor
    · show jsMapGet (Elo.stateAfterWith Elo.calculateRatingChange ms (k + 1)).playerRatings p = _
      rw [hsucc, Elo.processMatchesStepWith_playerRatings]
      exact hmem'.1
    · show jsMapGet (Elo.stateAfterWith Elo.calculateRatingChange ms (k + 1)).playerGames p = _
      rw [hsucc, Elo.processMatchesStepWith_playerGames]
      exact hmem'.2.1

/-! ## Claim C7: lookups during processing vs. true current state -/

/-- All player ids mentioned by a match list. -/
def Elo.allParticipants (ms : List MatchRec) : List String :=
  (ms.map MatchRec.participants).join

/-- The recorded change of a player in a processed match (0 when the player
has no entry). -/
def Elo.changeIn (pm : Elo.ProcessedMatch) (p : String) : ℤ :=
  ((pm.ratingChanges.find? (fun q => q.1 == p)).map Prod.snd).getD 0

/-- A player's rating after the first `k` matches: 1500 plus the sum of the
changes the engine recorded for them in those matches. -/
noncomputable def Elo.ratingAfter (ms : List MatchRec) (k : ℕ) (p : String) : ℚ :=
  Elo.INITIAL_RATING +
    ((Elo.stateAfter ms k).processedMatches.map (fun pm => (Elo.changeIn pm p : ℚ))).sum

/-- The number of matches among the first `k` in which a player takes part. -/
def Elo.priorCount (ms : List MatchRec) (k : ℕ) (p : String) : ℕ :=
  (ms.take k).countP (fun m => m.participants.contains p)

/-- The player appears in some match strictly before index `k`. -/
def Elo.seenBefore (ms : List MatchRec) (k : ℕ) (p : String) : Prop :=
  ∃ m ∈ ms.take k, p ∈ m.participants

instance (ms : List MatchRec) (k : ℕ) (p : String) :
    Decidable (Elo.seenBefore ms k p) :=
  inferInstanceAs (Decidable (∃ m ∈ ms.take k, p ∈ m.participants))

/-- The ratings map evolves autonomously under a changes object. -/
lemma Elo.foldl_applyChange_ratings (d i : String) (st : Elo.EloState)
    (entries : List (String × ℤ)) :
    (entries.foldl (Elo.applyChange d i) st).playerRatings =
      entries.foldl
        (fun rs pc => jsMapSet rs pc.1 ((jsMapGet rs pc.1).getD 0 + (pc.2 : ℚ)))
        st.playerRatings := by
  induction entries generalizing st with
  | nil => rfl
  | cons q entries ih => rw [List.foldl_cons, List.foldl_cons, ih]; rfl

/-- The games map evolves autonomously under a changes object. -/
lemma Elo.foldl_applyChange_games (d i : String) (st : Elo.EloState)
    (entries : List (String × ℤ)) :
    (entries.foldl (Elo.applyChange d i) st).playerGames =
      entries.foldl
        (fun gs pc => jsMapSet gs pc.1 (jsNatOr (jsMapGet gs pc.1) 0 + 1))
        st.playerGames := by
  induction entries generalizing st with
  | nil => rfl
  | cons q entries ih => rw [List.foldl_cons, List.foldl_cons, ih]; rfl

/-- The four-match trace used to analyse C7: `A`,`B` win, then lose again at
equal team ratings, returning to exactly 1500, and then play a fourth match. -/
def c7trace : List MatchRec :=
  [{ id := "t1", date := "d1", team1 := ("A", "B"), team2 := ("C", "D"),
     score := (21, 15), winner := 1 },
   { id := "t2", date := "d1", team1 := ("E", "F"), team2 := ("G", "H"),
     score := (21, 15), winner := 1 },
   { id := "t3", date := "d1", team1 := ("A", "B"), team2 := ("E", "F"),
     score := (15, 21), winner := 2 },
   { id := "t4", date := "d1", team1 := ("A", "B"), team2 := ("I", "J"),
     score := (21, 15), winner := 1 }]

lemma c7trace_maps_one :
    (Elo.stateAfter c7trace 1).playerRatings =
      [("A", 1520), ("B", 1520), ("C", 1480), ("D", 1480), ("E", 1500),
       ("F", 1500), ("G", 1500), ("H", 1500), ("I", 1500), ("J", 1500)] ∧
    (Elo.stateAfter c7trace 1).playerGames =
      [("A", 1), ("B", 1), ("C", 1), ("D", 1), ("E", 0), ("F", 0), ("G", 0),
       ("H", 0), ("I", 0), ("J", 0)] := by
  have hR0 : (Elo.stateAfter c7trace 0).playerRatings =
      [("A", 1500), ("B", 1500), ("C", 1500), ("D", 1500), ("E", 1500),
       ("F", 1500), ("G", 1500), ("H", 1500), ("I", 1500), ("J", 1500)] := by decide
  have hG0 : (Elo.stateAfter c7trace 0).playerGames =
      [("A", 0), ("B", 0), ("C", 0), ("D", 0), ("E", 0), ("F", 0), ("G", 0),
       ("H", 0), ("I", 0), ("J", 0)] := by decide
  have hstep := Elo.stateAfterWith_succ Elo.calculateRatingChange c7trace 0 (by decide)
  have hm : c7trace.get ⟨0, by decide⟩ =
      { id := "t1", date := "d1", team1 := ("A", "B"), team2 := ("C", "D"),
        score := (21, 15), winner := 1 } := rfl
  rw [hm] at hstep
  constructor
  · show (Elo.stateAfterWith Elo.calculateRatingChange c7trace 1).playerRatings = _
    rw [hstep, Elo.processMatchesStepWith_playerRatings, Elo.foldl_applyChange_ratings,
      Elo.processMatchWith_eval _ _ _ _ (by decide)]
    rw [show Elo.stateAfterWith Elo.calculateRatingChange c7trace 0 = Elo.stateAfter c7trace 0 from rfl,
      hR0, hG0]
    norm_num [jsMapGet, jsNumOr, jsNatOr, Elo.calculateTeamRating, Elo.INITIAL_RATING,
      Elo.calculateRatingChange_self]
    simp only [String.reduceEq, if_false, if_true, reduceIte]
    norm_num [jsMapSet, jsMapGet, Elo.calculateRatingChange_self]
    simp only [String.reduceEq, if_false, if_true, reduceIte]
  · show (Elo.stateAfterWith Elo.calculateRatingChange c7trace 1).playerGames = _
    rw [hstep, Elo.processMatchesStepWith_playerGames, Elo.foldl_applyChange_games,
      Elo.processMatchWith_eval _ _ _ _ (by decide)]
    rw [show Elo.stateAfterWith Elo.calculateRatingChange c7trace 0 = Elo.stateAfter c7trace 0 from rfl,
      hR0, hG0]
    norm_num [jsMapGet, jsNumOr, jsNatOr, Elo.calculateTeamRating, Elo.INITIAL_RATING,
      Elo.calculateRatingChange_self]
    simp only [String.reduceEq, if_false, if_true, reduceIte]
    norm_num [jsMapSet, jsMapGet, Elo.calculateRatingChange_self]
    simp only [String.reduceEq, if_false, if_true, reduceIte]

lemma c7trace_maps_two :
    (Elo.stateAfter c7trace 2).playerRatings =
      [("A", 1520), ("B", 1520), ("C", 1480), ("D", 1480), ("E", 1520),
       ("F", 1520), ("G", 1480), ("H", 1480), ("I", 1500), ("J", 1500)] ∧
    (Elo.stateAfter c7trace 2).playerGames =
      [("A", 1), ("B", 1), ("C", 1), ("D", 1), ("E", 1), ("F", 1), ("G", 1),
       ("H", 1), ("I", 0), ("J", 0)] := by
  obtain ⟨hR1, hG1⟩ := c7trace_maps_one
  have hstep := Elo.stateAfterWith_succ Elo.calculateRatingChange c7trace 1 (by decide)
  have hm : c7trace.get ⟨1, by decide⟩ =
      { id := "t2", date := "d1", team1 := ("E", "F"), team2 := ("G", "H"),
        score := (21, 15), winner := 1 } := rfl
  rw [hm] at hstep
  constructor
  · show (Elo.stateAfterWith Elo.calculateRatingChange c7trace 2).playerRatings = _
    rw [hstep, Elo.processMatchesStepWith_playerRatings, Elo.foldl_applyChange_ratings,
      Elo.processMatchWith_eval _ _ _ _ (by decide)]
    rw [show Elo.stateAfterWith Elo.calculateRatingChange c7trace 1 = Elo.stateAfter c7trace 1 from rfl,
      hR1, hG1]
    norm_num [jsMapGet, jsNumOr, jsNatOr, Elo.calculateTeamRating, Elo.INITIAL_RATING,
      Elo.calculateRatingChange_self]
    simp only [String.reduceEq, if_false, if_true, reduceIte]
    norm_num [jsMapSet, jsMapGet, Elo.calculateRatingChange_self]
    simp only [String.reduceEq, if_false, if_true, reduceIte]
  · show (Elo.stateAfterWith Elo.calculateRatingChange c7trace 2).playerGames = _
    rw [hstep, Elo.processMatchesStepWith_playerGames, Elo.foldl_applyChange_games,
      Elo.processMatchWith_eval _ _ _ _ (by decide)]
    rw [show Elo.stateAfterWith Elo.calculateRatingChange c7trace 1 = Elo.stateAfter c7trace 1 from rfl,
      hR1, hG1]
    norm_num [jsMapGet, jsNumOr, jsNatOr, Elo.calculateTeamRating, Elo.INITIAL_RATING,
      Elo.calculateRatingChange_self]
    simp only [String.reduceEq, if_false, if_true, reduceIte]
    norm_num [jsMapSet, jsMapGet, Elo.calculateRatingChange_self]
    simp only [String.reduceEq, if_false, if_true, reduceIte]

lemma c7trace_maps_three :
    (Elo.stateAfter c7trace 3).playerRatings =
      [("A", 1500), ("B", 1500), ("C", 1480), ("D", 1480), ("E", 1540),
       ("F", 1540), ("G", 1480), ("H", 1480), ("I", 1500), ("J", 1500)] ∧
    (Elo.stateAfter c7trace 3).playerGames =
      [("A", 2), ("B", 2), ("C", 1), ("D", 1), ("E", 2), ("F", 2), ("G", 1),
       ("H", 1), ("I", 0), ("J", 0)] := by
  obtain ⟨hR2, hG2⟩ := c7trace_maps_two
  have hstep := Elo.stateAfterWith_succ Elo.calculateRatingChange c7trace 2 (by decide)
  have hm : c7trace.get ⟨2, by decide⟩ =
      { id := "t3", date := "d1", team1 := ("A", "B"), team2 := ("E", "F"),
        score := (15, 21), winner := 2 } := rfl
  rw [hm] at hstep
  constructor
  · show (Elo.stateAfterWith Elo.calculateRatingChange c7trace 3).playerRatings = _
    rw [hstep, Elo.processMatchesStepWith_playerRatings, Elo.foldl_applyChange_ratings,
      Elo.processMatchWith_eval _ _ _ _ (by decide)]
    rw [show Elo.stateAfterWith Elo.calculateRatingChange c7trace 2 = Elo.stateAfter c7trace 2 from rfl,
      hR2, hG2]
    norm_num [jsMapGet, jsNumOr, jsNatOr, Elo.calculateTeamRating, Elo.INITIAL_RATING,
      Elo.calculateRatingChange_self]
    simp only [String.reduceEq, if_false, if_true, reduceIte]
    norm_num [jsMapSet, jsMapGet, Elo.calculateRatingChange_self]
    simp only [String.reduceEq, if_false, if_true, reduceIte]
  · show (Elo.stateAfterWith Elo.calculateRatingChange c7trace 3).playerGames = _
    rw [hstep, Elo.processMatchesStepWith_playerGames, Elo.foldl_applyChange_games,
      Elo.processMatchWith_eval _ _ _ _ (by decide)]
    rw [show Elo.stateAfterWith Elo.calculateRatingChange c7trace 2 = Elo.stateAfter c7trace 2 from rfl,
      hR2, hG2]
    norm_num [jsMapGet, jsNumOr, jsNatOr, Elo.calculateTeamRating, Elo.INITIAL_RATING,
      Elo.calculateRatingChange_self]
    simp only [String.reduceEq, if_false, if_true, reduceIte]
    norm_num [jsMapSet, jsMapGet, Elo.calculateRatingChange_self]
    simp only [String.reduceEq, if_false, if_true, reduceIte]

/-- C7 counterexample: after the three matches of `c7trace`, player `A` is
back at exactly rating 1500, so the engine reads 1500 for a player who has
appeared before, refuting the claim's "1500 is used exactly when the player
is unseen". -/
theorem c7_counterexample :
    ¬ (∀ ms : List MatchRec, (∀ m ∈ ms, m.wellFormed) →
        ∀ k, ∀ hk : k < ms.length, ∀ p ∈ (ms.get ⟨k, hk⟩).participants,
          Elo.usedRating (Elo.stateAfter ms k) p = Elo.ratingAfter ms k p ∧
          (Elo.usedRating (Elo.stateAfter ms k) p = Elo.INITIAL_RATING ↔
            ¬ Elo.seenBefore ms k p) ∧
          Elo.usedGames (Elo.stateAfter ms k) p = Elo.priorCount ms k p ∧
          (Elo.usedGames (Elo.stateAfter ms k) p = 0 ↔ ¬ Elo.seenBefore ms k p)) := by
  intro h
  obtain ⟨-, hiff, -, -⟩ := h c7trace (by decide) 3 (by decide) "A" (by decide)
  have hused : Elo.usedRating (Elo.stateAfter c7trace 3) "A" = Elo.INITIAL_RATING := by
    unfold Elo.usedRating
    rw [c7trace_maps_three.1]
    norm_num [jsMapGet, jsNumOr, Elo.INITIAL_RATING]
  have hseen : Elo.seenBefore c7trace 3 "A" := by decide
  exact (hiff.mp hused) hseen

/-! ### Tracking the true rating and games count through the run -/

lemma jsNatOr_some (g : ℕ) : jsNatOr (some g) 0 = g := by
  cases g <;> simp [jsNatOr]

lemma find?_eq_of_mem_nodup {α : Type} (entries : List (String × α)) (p : String)
    (v : α) (hmem : (p, v) ∈ entries) (hnd : (entries.map Prod.fst).Nodup) :
    entries.find? (fun q => q.1 == p) = some (p, v) := by
  induction entries with
  | nil => simp at hmem
  | cons q entries ih =>
    rcases List.mem_cons.mp hmem with hq | hq
    · subst hq
      simp [List.find?]
    · have hq1 : (q.1 == p) = false := by
        simp only [List.map_cons, List.nodup_cons] at hnd
        refine beq_eq_false_iff_ne.mpr fun e => hnd.1 ?_
        exact e ▸ List.mem_map_of_mem Prod.fst hq
      rw [List.find?_cons_of_neg _ (by simp [hq1])]
      exact ih hq (by simp only [List.map_cons, List.nodup_cons] at hnd; exact hnd.2)

lemma find?_eq_none_of_not_mem_keys {α : Type} (entries : List (String × α))
    (p : String) (hp : p ∉ entries.map Prod.fst) :
    entries.find? (fun q => q.1 == p) = none := by
  rw [List.find?_eq_none]
  intro q hq
  simp only [beq_iff_eq]
  intro e
  exact hp (e ▸ List.mem_map_of_mem Prod.fst hq)

lemma Elo.ratingAfter_zero (ms : List MatchRec) (p : String) :
    Elo.ratingAfter ms 0 p = Elo.INITIAL_RATING := by
  unfold Elo.ratingAfter
  rw [show Elo.stateAfter ms 0 = Elo.initState ms from rfl,
    Elo.initState_processedMatches]
  simp

lemma Elo.priorCount_zero (ms : List MatchRec) (p : String) :
    Elo.priorCount ms 0 p = 0 := rfl

lemma Elo.ratingAfter_succ (ms : List MatchRec) (k : ℕ) (hk : k < ms.length)
    (p : String) :
    Elo.ratingAfter ms (k + 1) p =
      Elo.ratingAfter ms k p +
        (Elo.changeIn
          { base := ms.get ⟨k, hk⟩,
            ratingChanges :=
              Elo.processMatch (ms.get ⟨k, hk⟩) (Elo.stateAfter ms k).playerRatings
                (Elo.stateAfter ms k).playerGames } p : ℚ) := by
  unfold Elo.ratingAfter
  rw [show Elo.stateAfter ms (k + 1) =
      Elo.stateAfterWith Elo.calculateRatingChange ms (k + 1) from rfl,
    Elo.stateAfterWith_succ Elo.calculateRatingChange ms k hk,
    Elo.processMatchesStepWith_processedMatches]
  rw [List.map_append, List.sum_append]
  simp [add_assoc]
  rfl

lemma Elo.priorCount_succ (ms : List MatchRec) (k : ℕ) (hk : k < ms.length)
    (p : String) :
    Elo.priorCount ms (k + 1) p =
      Elo.priorCount ms k p +
        (if p ∈ (ms.get ⟨k, hk⟩).participants then 1 else 0) := by
  unfold Elo.priorCount
  rw [List.take_succ, List.getElem?_eq_getElem hk, Option.toList_some,
    List.countP_append]
  simp only [List.countP_cons, List.countP_nil]
  congr 1
  by_cases hp : p ∈ (ms.get ⟨k, hk⟩).participants
  · simp [hp, List.get_eq_getElem]
  · simp [hp, List.get_eq_getElem]

/-- After the initialization pass every player starts at rating 1500 with
0 games: any id is either absent from both maps or seeded with defaults. -/
def Elo.InitInv (st : Elo.EloState) : Prop :=
  ∀ p, (jsMapGet st.playerRatings p = none ∧ jsMapGet st.playerGames p = none) ∨
       (jsMapGet st.playerRatings p = some Elo.INITIAL_RATING ∧
        jsMapGet st.playerGames p = some 0)

lemma Elo.initPlayer_InitInv (d : String) (st : Elo.EloState) (q : String)
    (h : Elo.InitInv st) : Elo.InitInv (Elo.initPlayer d st q) := by
  intro p
  unfold Elo.initPlayer
  split
  · exact h p
  · by_cases hpq : p = q
    · subst hpq
      right
      exact ⟨jsMapGet_set_self _ _ _, jsMapGet_set_self _ _ _⟩
    · rcases h p with ⟨h1, h2⟩ | ⟨h1, h2⟩
      · left
        exact ⟨(jsMapGet_set_ne _ _ _ _ hpq).trans h1, (jsMapGet_set_ne _ _ _ _ hpq).trans h2⟩
      · right
        exact ⟨(jsMapGet_set_ne _ _ _ _ hpq).trans h1, (jsMapGet_set_ne _ _ _ _ hpq).trans h2⟩

lemma Elo.initPlayer_has_self (d : String) (st : Elo.EloState) (q : String) :
    jsMapHas (Elo.initPlayer d st q).playerRatings q = true := by
  unfold Elo.initPlayer
  split
  · assumption
  · unfold jsMapHas
    rw [jsMapGet_set_self]
    rfl

lemma Elo.initPlayer_has_mono (d : String) (st : Elo.EloState) (q p : String)
    (h : jsMapHas st.playerRatings p = true) :
    jsMapHas (Elo.initPlayer d st q).playerRatings p = true := by
  unfold Elo.initPlayer
  split
  · exact h
  · show jsMapHas (jsMapSet st.playerRatings q Elo.INITIAL_RATING) p = true
    rw [jsMapHas_set]
    simp [h]

lemma Elo.foldl_initPlayer_inv (d : String) (ps : List String) (st : Elo.EloState)
    (h : Elo.InitInv st) : Elo.InitInv (ps.foldl (Elo.initPlayer d) st) := by
  induction ps generalizing st with
  | nil => exact h
  | cons q ps ih => exact ih _ (Elo.initPlayer_InitInv d st q h)

lemma Elo.foldl_initPlayer_has_mono (d : String) (ps : List String)
    (st : Elo.EloState) (p : String) (h : jsMapHas st.playerRatings p = true) :
    jsMapHas ((ps.foldl (Elo.initPlayer d) st)).playerRatings p = true := by
  induction ps generalizing st with
  | nil => exact h
  | cons q ps ih => exact ih _ (Elo.initPlayer_has_mono d st q p h)

lemma Elo.foldl_initPlayer_has (d : String) (ps : List String) (st : Elo.EloState)
    (p : String) (hp : p ∈ ps) :
    jsMapHas ((ps.foldl (Elo.initPlayer d) st)).playerRatings p = true := by
  induction ps generalizing st with
  | nil => simp at hp
  | cons q ps ih =>
    rcases List.mem_cons.mp hp with hq | hq
    · subst hq
      exact Elo.foldl_initPlayer_has_mono d ps _ p (Elo.initPlayer_has_self d st p)
    · exact ih _ hq

lemma Elo.mem_allParticipants (ms : List MatchRec) (p : String) :
    p ∈ Elo.allParticipants ms ↔ ∃ m ∈ ms, p ∈ m.participants := by
  simp [Elo.allParticipants, List.mem_join]

lemma Elo.initState_inv (ms : List MatchRec) : Elo.InitInv (Elo.initState ms) := by
  have h : ∀ st0 : Elo.EloState, Elo.InitInv st0 →
      Elo.InitInv (ms.foldl Elo.initMatchPlayers st0) := by
    induction ms with
    | nil => exact fun st0 h0 => h0
    | cons m ms ih =>
      exact fun st0 h0 => ih _ (Elo.foldl_initPlayer_inv m.date m.participants st0 h0)
  exact h _ (fun p => Or.inl ⟨rfl, rfl⟩)

lemma Elo.initState_has (ms : List MatchRec) (p : String)
    (hp : p ∈ Elo.allParticipants ms) :
    jsMapHas (Elo.initState ms).playerRatings p = true := by
  have hmono : ∀ (ms2 : List MatchRec) (st0 : Elo.EloState),
      jsMapHas st0.playerRatings p = true →
      jsMapHas (ms2.foldl Elo.initMatchPlayers st0).playerRatings p = true := by
    intro ms2
    induction ms2 with
    | nil => exact fun st0 h => h
    | cons m ms2 ih =>
      exact fun st0 h => ih _ (Elo.foldl_initPlayer_has_mono m.date m.participants st0 p h)
  have h : ∀ (ms2 : List MatchRec) (st0 : Elo.EloState), (∃ m ∈ ms2, p ∈ m.participants) →
      jsMapHas (ms2.foldl Elo.initMatchPlayers st0).playerRatings p = true := by
    intro ms2
    induction ms2 with
    | nil => intro st0 h0; simp at h0
    | cons m ms2 ih =>
      intro st0 h0
      rw [List.foldl_cons]
      by_cases hm : p ∈ m.participants
      · exact hmono ms2 _ (Elo.foldl_initPlayer_has m.date m.participants st0 p hm)
      · refine ih _ ?_
        rcases h0 with ⟨m2, hm2, hpm2⟩
        rcases List.mem_cons.mp hm2 with rfl | hm2
        · exact absurd hpm2 hm
        · exact ⟨m2, hm2, hpm2⟩
  exact h ms _ ((Elo.mem_allParticipants ms p).mp hp)

lemma Elo.initState_get (ms : List MatchRec) (p : String)
    (hp : p ∈ Elo.allParticipants ms) :
    jsMapGet (Elo.initState ms).playerRatings p = some Elo.INITIAL_RATING ∧
    jsMapGet (Elo.initState ms).playerGames p = some 0 := by
  have hhas := Elo.initState_has ms p hp
  rcases Elo.initState_inv ms p with ⟨h1, _⟩ | h
  · rw [jsMapHas, h1] at hhas
    simp at hhas
  · exact h

/-- Through the whole run, the stored rating of every player is 1500 plus
the sum of their recorded changes, and the stored games count is their
number of prior matches. -/
lemma Elo.stateAfter_tracks (ms : List MatchRec) (hwf : ∀ m ∈ ms, m.wellFormed)
    (p : String) (hp : p ∈ Elo.allParticipants ms) :
    ∀ k, k ≤ ms.length →
      jsMapGet (Elo.stateAfter ms k).playerRatings p =
        some (Elo.ratingAfter ms k p) ∧
      jsMapGet (Elo.stateAfter ms k).playerGames p =
        some (Elo.priorCount ms k p) := by
  intro k
  induction k with
  | zero =>
    intro _
    obtain ⟨h1, h2⟩ := Elo.initState_get ms p hp
    constructor
    · rw [show Elo.stateAfter ms 0 = Elo.initState ms from rfl, h1,
        Elo.ratingAfter_zero]
    · rw [show Elo.stateAfter ms 0 = Elo.initState ms from rfl, h2,
        Elo.priorCount_zero]
  | succ n ih =>
    intro hk
    have hn : n < ms.length := by omega
    obtain ⟨ihr, ihg⟩ := ih (by omega)
    have hwfm : (ms.get ⟨n, hn⟩).wellFormed := hwf _ (List.get_mem ms n hn)
    have hkeys : ((Elo.processMatchWith Elo.calculateRatingChange (ms.get ⟨n, hn⟩)
        (Elo.stateAfter ms n).playerRatings (Elo.stateAfter ms n).playerGames).map
          Prod.fst) = (ms.get ⟨n, hn⟩).participants :=
      Elo.processMatchWith_keys _ _ _ _ hwfm
    have hnd : ((Elo.processMatchWith Elo.calculateRatingChange (ms.get ⟨n, hn⟩)
        (Elo.stateAfter ms n).playerRatings (Elo.stateAfter ms n).playerGames).map
          Prod.fst).Nodup := by
      rw [hkeys]
      exact hwfm
    have hsucc := Elo.stateAfterWith_succ Elo.calculateRatingChange ms n hn
    have hra := Elo.ratingAfter_succ ms n hn p
    have hpc := Elo.priorCount_succ ms n hn p
    by_cases hpm : p ∈ (ms.get ⟨n, hn⟩).participants
    · have hpk : p ∈ ((Elo.processMatchWith Elo.calculateRatingChange (ms.get ⟨n, hn⟩)
          (Elo.stateAfter ms n).playerRatings (Elo.stateAfter ms n).playerGames).map
            Prod.fst) := hkeys ▸ hpm
      obtain ⟨q, hq, hq1⟩ := List.mem_map.mp hpk
      have hmem : (p, q.2) ∈ Elo.processMatchWith Elo.calculateRatingChange
          (ms.get ⟨n, hn⟩) (Elo.stateAfter ms n).playerRatings
          (Elo.stateAfter ms n).playerGames := by
        cases q
        cases hq1
        exact hq
      have hfind := find?_eq_of_mem_nodup _ p q.2 hmem hnd
      have hchange : Elo.changeIn
          { base := ms.get ⟨n, hn⟩,
            ratingChanges := Elo.processMatch (ms.get ⟨n, hn⟩)
              (Elo.stateAfter ms n).playerRatings (Elo.stateAfter ms n).playerGames } p
          = q.2 := by
        unfold Elo.changeIn
        show ((Elo.processMatchWith Elo.calculateRatingChange (ms.get ⟨n, hn⟩)
          (Elo.stateAfter ms n).playerRatings
          (Elo.stateAfter ms n).playerGames).find? (fun r => r.1 == p)
            |>.map Prod.snd).getD 0 = q.2
        rw [hfind]
        rfl
      obtain ⟨hm1, hm2, -⟩ := Elo.foldl_applyChange_mem (ms.get ⟨n, hn⟩).date
        (ms.get ⟨n, hn⟩).id (Elo.stateAfter ms n) _ p q.2 hmem hnd
      constructor
      · show jsMapGet (Elo.stateAfterWith Elo.calculateRatingChange ms (n + 1)).playerRatings p = _
        rw [hsucc, Elo.processMatchesStepWith_playerRatings,
          show Elo.stateAfterWith Elo.calculateRatingChange ms n = Elo.stateAfter ms n from rfl]
        rw [hm1, ihr]
        rw [hra, hchange]
        simp
      · show jsMapGet (Elo.stateAfterWith Elo.calculateRatingChange ms (n + 1)).playerGames p = _
        rw [hsucc, Elo.processMatchesStepWith_playerGames,
          show Elo.stateAfterWith Elo.calculateRatingChange ms n = Elo.stateAfter ms n from rfl]
        rw [hm2, ihg]
        rw [hpc, if_pos hpm, jsNatOr_some]
    · have hpk : p ∉ ((Elo.processMatchWith Elo.calculateRatingChange (ms.get ⟨n, hn⟩)
          (Elo.stateAfter ms n).playerRatings (Elo.stateAfter ms n).playerGames).map
            Prod.fst) := by
        rw [hkeys]
        exact hpm
      have hchange : Elo.changeIn
          { base := ms.get ⟨n, hn⟩,
            ratingChanges := Elo.processMatch (ms.get ⟨n, hn⟩)
              (Elo.stateAfter ms n).playerRatings (Elo.stateAfter ms n).playerGames } p
          = 0 := by
        unfold Elo.changeIn
        show ((Elo.processMatchWith Elo.calculateRatingChange (ms.get ⟨n, hn⟩)
          (Elo.stateAfter ms n).playerRatings
          (Elo.stateAfter ms n).playerGames).find? (fun r => r.1 == p)
            |>.map Prod.snd).getD 0 = 0
        rw [find?_eq_none_of_not_mem_keys _ p hpk]
        rfl
      obtain ⟨hm1, hm2, -⟩ := Elo.foldl_applyChange_not_mem (ms.get ⟨n, hn⟩).date
        (ms.get ⟨n, hn⟩).id (Elo.stateAfter ms n) _ p hpk
      constructor
      · show jsMapGet (Elo.stateAfterWith Elo.calculateRatingChange ms (n + 1)).playerRatings p = _
        rw [hsucc, Elo.processMatchesStepWith_playerRatings,
          show Elo.stateAfterWith Elo.calculateRatingChange ms n = Elo.stateAfter ms n from rfl]
        rw [hm1, ihr, hra, hchange]
        simp
      · show jsMapGet (Elo.stateAfterWith Elo.calculateRatingChange ms (n + 1)).playerGames p = _
        rw [hsucc, Elo.processMatchesStepWith_playerGames,
          show Elo.stateAfterWith Elo.calculateRatingChange ms n = Elo.stateAfter ms n from rfl]
        rw [hm2, ihg, hpc, if_neg hpm]
        simp

lemma Elo.ratingAfter_unseen (ms : List MatchRec) (hwf : ∀ m ∈ ms, m.wellFormed)
    (k : ℕ) (hk : k ≤ ms.length) (p : String)
    (hseen : ¬ Elo.seenBefore ms k p) :
    Elo.ratingAfter ms k p = Elo.INITIAL_RATING := by
  induction k with
  | zero => exact Elo.ratingAfter_zero ms p
  | succ n ih =>
    have hn : n < ms.length := by omega
    have htake := List.take_succ (l := ms) (n := n)
    rw [List.getElem?_eq_getElem hn, Option.toList_some] at htake
    have hseen' : ¬ Elo.seenBefore ms n p := by
      intro ⟨m, hm, hpm⟩
      exact hseen ⟨m, by rw [Elo.seenBefore] at *; rw [htake]; exact List.mem_append_left _ hm, hpm⟩
    have hpm : p ∉ (ms.get ⟨n, hn⟩).participants := by
      intro hpm
      refine hseen ⟨ms.get ⟨n, hn⟩, ?_, hpm⟩
      rw [htake]
      refine List.mem_append_right _ ?_
      simp [List.get_eq_getElem]
    have hwfm : (ms.get ⟨n, hn⟩).wellFormed := hwf _ (List.get_mem ms n hn)
    have hkeys := Elo.processMatchWith_keys Elo.calculateRatingChange (ms.get ⟨n, hn⟩)
      (Elo.stateAfter ms n).playerRatings (Elo.stateAfter ms n).playerGames hwfm
    have hchange : Elo.changeIn
        { base := ms.get ⟨n, hn⟩,
          ratingChanges := Elo.processMatch (ms.get ⟨n, hn⟩)
            (Elo.stateAfter ms n).playerRatings (Elo.stateAfter ms n).playerGames } p
        = 0 := by
      unfold Elo.changeIn
      show ((Elo.processMatchWith Elo.calculateRatingChange (ms.get ⟨n, hn⟩)
        (Elo.stateAfter ms n).playerRatings
        (Elo.stateAfter ms n).playerGames).find? (fun r => r.1 == p)
          |>.map Prod.snd).getD 0 = 0
      rw [find?_eq_none_of_not_mem_keys _ p (by rw [hkeys]; exact hpm)]
      rfl
    rw [Elo.ratingAfter_succ ms n hn p, hchange, ih (by omega) hseen']
    simp

/-- C7 (amended): during processing, the games count the engine reads is
always the player's true number of prior matches (0 exactly for unseen
players), and the rating it reads is the player's true current rating
whenever that rating is nonzero; an unseen player is read as 1500.  (The
falsy `|| INITIAL_RATING` lookup also reads 1500 for a seen player whose
current rating is exactly 1500 or exactly 0, which is what refutes the
original "exactly when unseen" biconditional.) -/
theorem c7_lookups_amended (ms : List MatchRec) (hwf : ∀ m ∈ ms, m.wellFormed)
    (k : ℕ) (hk : k < ms.length) (p : String)
    (hp : p ∈ (ms.get ⟨k, hk⟩).participants) :
    (Elo.ratingAfter ms k p ≠ 0 →
      Elo.usedRating (Elo.stateAfter ms k) p = Elo.ratingAfter ms k p) ∧
    (¬ Elo.seenBefore ms k p →
      Elo.usedRating (Elo.stateAfter ms k) p = Elo.INITIAL_RATING) ∧
    Elo.usedGames (Elo.stateAfter ms k) p = Elo.priorCount ms k p ∧
    (Elo.usedGames (Elo.stateAfter ms k) p = 0 ↔ ¬ Elo.seenBefore ms k p) := by
  have hpall : p ∈ Elo.allParticipants ms :=
    (Elo.mem_allParticipants ms p).mpr ⟨_, List.get_mem ms k hk, hp⟩
  obtain ⟨hr, hg⟩ := Elo.stateAfter_tracks ms hwf p hpall k (le_of_lt hk)
  refine ⟨?_, ?_, ?_, ?_⟩
  · intro hne
    unfold Elo.usedRating
    rw [hr]
    simp [jsNumOr, hne]
  · intro hseen
    unfold Elo.usedRating
    rw [hr, Elo.ratingAfter_unseen ms hwf k (le_of_lt hk) p hseen]
    simp [jsNumOr, Elo.INITIAL_RATING]
  · unfold Elo.usedGames
    rw [hg, jsNatOr_some]
  · unfold Elo.usedGames
    rw [hg, jsNatOr_some]
    unfold Elo.priorCount Elo.seenBefore
    rw [List.countP_eq_zero]
    constructor
    · intro h hex
      obtain ⟨m, hm, hpm⟩ := hex
      have h2 := h m hm
      have h3 : m.participants.contains p = true := List.elem_iff.mpr hpm
      exact h2 h3
    · intro h m hm
      simp only [Bool.not_eq_true]
      by_cases hpm : p ∈ m.participants
      · exact absurd ⟨m, hm, hpm⟩ h
      · have h3 : ¬ m.participants.contains p = true := fun hc => hpm (List.elem_iff.mp hc)
        simp only [Bool.not_eq_true] at h3
        exact h3

/-- Witness for the amended C7 at the single example match (player `A` of
its first match, an unseen player). -/
theorem c7_lookups_amended_witness :
    Elo.usedGames (Elo.stateAfter [exampleMatch] 0) "A" =
      Elo.priorCount [exampleMatch] 0 "A" :=
  (c7_lookups_amended [exampleMatch] (by decide) 0 (by decide) "A" (by decide)).2.2.1

/-- Witness for C3 at the single example match. -/
theorem c3_frozen_prematch_state_witness :
    (Elo.processAllMatches [exampleMatch]).processedMatches.get? 0 =
      some { base := exampleMatch,
             ratingChanges := Elo.processMatch exampleMatch
               (Elo.stateAfter [exampleMatch] 0).playerRatings
               (Elo.stateAfter [exampleMatch] 0).playerGames } :=
  (c3_frozen_prematch_state [exampleMatch] 0 (by decide) (by decide)).1

/-! ## Claim C8: invariants of the output player records -/

lemma jsMapGet_isSome_of_mem_keys {α : Type} (m : List (String × α)) (p : String)
    (hp : p ∈ m.map Prod.fst) : (jsMapGet m p).isSome = true := by
  induction m with
  | nil => simp at hp
  | cons q m ih =>
    by_cases hq : (q.1 == p) = true
    · simp [jsMapGet, hq]
    · have : p ∈ m.map Prod.fst := by
        rcases List.mem_cons.mp hp with h | h
        · exact absurd (beq_iff_eq.mpr h.symm) (by simpa using hq)
        · exact h
      simpa [jsMapGet, hq] using ih this

lemma jsMapGet_of_mem_nodup {α : Type} (m : List (String × α)) (p : String) (v : α)
    (hmem : (p, v) ∈ m) (hnd : (m.map Prod.fst).Nodup) : jsMapGet m p = some v := by
  induction m with
  | nil => simp at hmem
  | cons q m ih =>
    rcases List.mem_cons.mp hmem with hq | hq
    · subst hq
      simp [jsMapGet]
    · have hq1 : (q.1 == p) = false := by
        simp only [List.map_cons, List.nodup_cons] at hnd
        refine beq_eq_false_iff_ne.mpr fun e => hnd.1 ?_
        exact e ▸ List.mem_map_of_mem Prod.fst hq
      simp only [jsMapGet, hq1]
      exact ih hq (by simp only [List.map_cons, List.nodup_cons] at hnd; exact hnd.2)

lemma jsMapSet_keys_of_has {α : Type} (m : List (String × α)) (k : String) (v : α)
    (h : jsMapHas m k = true) :
    (jsMapSet m k v).map Prod.fst = m.map Prod.fst := by
  induction m with
  | nil => simp [jsMapHas, jsMapGet] at h
  | cons q m ih =>
    by_cases hq : (q.1 == k) = true
    · have : q.1 = k := by simpa using hq
      simp [jsMapSet, hq, this]
    · have hm : jsMapHas m k = true := by
        simpa [jsMapHas, jsMapGet, hq] using h
      simp only [jsMapSet, hq, if_false, Bool.false_eq_true, List.map_cons]
      rw [ih hm]

lemma jsMapSet_keys_of_not_has {α : Type} (m : List (String × α)) (k : String) (v : α)
    (h : jsMapHas m k = false) :
    (jsMapSet m k v).map Prod.fst = m.map Prod.fst ++ [k] := by
  induction m with
  | nil => simp [jsMapSet]
  | cons q m ih =>
    by_cases hq : (q.1 == k) = true
    · simp [jsMapHas, jsMapGet, hq] at h
    · have hm : jsMapHas m k = false := by
        simpa [jsMapHas, jsMapGet, hq] using h
      simp only [jsMapSet, hq, if_false, Bool.false_eq_true, List.map_cons]
      rw [ih hm]
      rfl

lemma mem_jsMapSet {α : Type} (m : List (String × α)) (k : String) (v : α)
    (q : String × α) (hq : q ∈ jsMapSet m k v) : q ∈ m ∨ q = (k, v) := by
  induction m with
  | nil => simpa [jsMapSet] using hq
  | cons q0 m ih =>
    by_cases h0 : (q0.1 == k) = true
    · simp only [jsMapSet, h0, if_true] at hq
      rcases List.mem_cons.mp hq with h | h
      · exact Or.inr h
      · exact Or.inl (List.mem_cons_of_mem _ h)
    · simp only [jsMapSet, h0, if_false, Bool.false_eq_true] at hq
      rcases List.mem_cons.mp hq with h | h
      · exact Or.inl (h ▸ List.mem_cons_self _ _)
      · rcases ih h with h2 | h2
        · exact Or.inl (List.mem_cons_of_mem _ h2)
        · exact Or.inr h2

/-- Any key of a changes object is a participant of its match. -/
lemma Elo.mem_keys_processMatchWith (kern : ℚ → ℚ → Bool → ℕ → ℤ) (m : MatchRec)
    (rs : List (String × ℚ)) (gs : List (String × ℕ)) (p : String)
    (hp : p ∈ (Elo.processMatchWith kern m rs gs).map Prod.fst) :
    p ∈ m.participants := by
  obtain ⟨q, hq, hq1⟩ := List.mem_map.mp hp
  subst hq1
  unfold Elo.processMatchWith at hq
  rcases mem_jsMapSet _ _ _ _ hq with h | h
  · rcases mem_jsMapSet _ _ _ _ h with h | h
    · rcases mem_jsMapSet _ _ _ _ h with h | h
      · rcases mem_jsMapSet _ _ _ _ h with h | h
        · simp at h
        · subst h
          simp [MatchRec.participants]
      · subst h
        simp [MatchRec.participants]
    · subst h
      simp [MatchRec.participants]
  · subst h
    simp [MatchRec.participants]

/-- The structural invariant connecting the three player maps: every rated
player has aligned games and history entries with the C8 bookkeeping facts. -/
def Elo.StateInv (st : Elo.EloState) : Prop :=
  (st.playerRatings.map Prod.fst).Nodup ∧
  ∀ p r, jsMapGet st.playerRatings p = some r →
    ∃ g h, jsMapGet st.playerGames p = some g ∧
      jsMapGet st.playerHistory p = some h ∧
      h.length = g + 1 ∧
      (h.head?.map (fun e => (e.rating, e.matchId, e.change)) =
        some (Elo.INITIAL_RATING, none, 0)) ∧
      r = Elo.INITIAL_RATING + ((h.map (fun e => (e.change : ℚ))).sum)

lemma Elo.initPlayer_StateInv (d : String) (st : Elo.EloState) (q : String)
    (h : Elo.StateInv st) : Elo.StateInv (Elo.initPlayer d st q) := by
  obtain ⟨hnd, hinv⟩ := h
  unfold Elo.initPlayer
  split
  · exact ⟨hnd, hinv⟩
  · rename_i hhas
    have hhas2 : jsMapHas st.playerRatings q = false := by
      simpa using hhas
    constructor
    · show ((jsMapSet st.playerRatings q Elo.INITIAL_RATING).map Prod.fst).Nodup
      rw [jsMapSet_keys_of_not_has _ _ _ hhas2]
      refine List.Nodup.append hnd (by simp) ?_
      intro a ha hb
      simp only [List.mem_singleton] at hb
      subst hb
      rw [jsMapHas] at hhas2
      have := jsMapGet_isSome_of_mem_keys st.playerRatings a ha
      rw [hhas2] at this
      exact absurd this (by simp)
    · intro p r hr
      by_cases hpq : p = q
      · subst hpq
        rw [jsMapGet_set_self] at hr
        injection hr with hr
        refine ⟨0, [{ date := d, rating := Elo.INITIAL_RATING, matchId := none, change := 0 }],
          jsMapGet_set_self _ _ _, jsMapGet_set_self _ _ _, rfl, rfl, ?_⟩
        simp [← hr]
      · rw [jsMapGet_set_ne _ _ _ _ hpq] at hr
        obtain ⟨g, hh, h1, h2, h3, h4, h5⟩ := hinv p r hr
        exact ⟨g, hh, (jsMapGet_set_ne _ _ _ _ hpq).trans h1,
          (jsMapGet_set_ne _ _ _ _ hpq).trans h2, h3, h4, h5⟩

lemma Elo.initState_StateInv (ms : List MatchRec) : Elo.StateInv (Elo.initState ms) := by
  have hstep : ∀ (d : String) (ps : List String) (st : Elo.EloState),
      Elo.StateInv st → Elo.StateInv (ps.foldl (Elo.initPlayer d) st) := by
    intro d ps
    induction ps with
    | nil => exact fun st h => h
    | cons q ps ih => exact fun st h => ih _ (Elo.initPlayer_StateInv d st q h)
  have h : ∀ st0 : Elo.EloState, Elo.StateInv st0 →
      Elo.StateInv (ms.foldl Elo.initMatchPlayers st0) := by
    induction ms with
    | nil => exact fun st0 h0 => h0
    | cons m ms ih => exact fun st0 h0 => ih _ (hstep m.date m.participants st0 h0)
  refine h _ ⟨by simp, ?_⟩
  intro p r hr
  simp [jsMapGet] at hr

lemma Elo.applyChange_StateInv (d i : String) (st : Elo.EloState) (pc : String × ℤ)
    (hhas : jsMapHas st.playerRatings pc.1 = true) (h : Elo.StateInv st) :
    Elo.StateInv (Elo.applyChange d i st pc) := by
  obtain ⟨hnd, hinv⟩ := h
  obtain ⟨r0, hr0⟩ : ∃ r, jsMapGet st.playerRatings pc.1 = some r := by
    rw [jsMapHas] at hhas
    cases hget : jsMapGet st.playerRatings pc.1 with
    | none => rw [hget] at hhas; simp at hhas
    | some r => exact ⟨r, rfl⟩
  obtain ⟨g0, h0, hg0, hh0, hlen, hhead, hsum⟩ := hinv pc.1 r0 hr0
  constructor
  · show ((jsMapSet st.playerRatings pc.1 _).map Prod.fst).Nodup
    rw [jsMapSet_keys_of_has _ _ _ hhas]
    exact hnd
  · intro p r hr
    by_cases hpq : p = pc.1
    · subst hpq
      rw [show (Elo.applyChange d i st pc).playerRatings =
          jsMapSet st.playerRatings pc.1 ((jsMapGet st.playerRatings pc.1).getD 0 + (pc.2 : ℚ)) from rfl,
        jsMapGet_set_self] at hr
      injection hr with hr
      refine ⟨g0 + 1,
        h0 ++ [{ date := d, rating := (jsMapGet st.playerRatings pc.1).getD 0 + (pc.2 : ℚ),
                 matchId := some i, change := pc.2 }], ?_, ?_, ?_, ?_, ?_⟩
      · rw [show (Elo.applyChange d i st pc).playerGames =
            jsMapSet st.playerGames pc.1 (jsNatOr (jsMapGet st.playerGames pc.1) 0 + 1) from rfl,
          jsMapGet_set_self, hg0, jsNatOr_some]
      · rw [show (Elo.applyChange d i st pc).playerHistory =
            jsMapSet st.playerHistory pc.1 ((jsMapGet st.playerHistory pc.1).getD [] ++
              [{ date := d, rating := (jsMapGet st.playerRatings pc.1).getD 0 + (pc.2 : ℚ),
                 matchId := some i, change := pc.2 }]) from rfl,
          jsMapGet_set_self, hh0]
        rfl
      · rw [List.length_append, hlen]
        rfl
      · have hne : h0 ≠ [] := by
          intro e
          rw [e] at hlen
          simp at hlen
        rw [List.head?_append]
        cases hh : h0.head? with
        | none => exact absurd (List.head?_eq_none_iff.mp hh) hne
        | some e =>
          rw [hh] at hhead
          simpa using hhead
      · rw [← hr, hr0]
        simp only [Option.getD_some, List.map_append, List.sum_append, hsum]
        simp [add_assoc]
    · obtain ⟨g, hh, h1, h2, h3, h4, h5⟩ := hinv p r
        (by rwa [show (Elo.applyChange d i st pc).playerRatings =
            jsMapSet st.playerRatings pc.1 ((jsMapGet st.playerRatings pc.1).getD 0 + (pc.2 : ℚ)) from rfl,
          jsMapGet_set_ne _ _ _ _ hpq] at hr)
      refine ⟨g, hh, ?_, ?_, h3, h4, h5⟩
      · rw [show (Elo.applyChange d i st pc).playerGames =
            jsMapSet st.playerGames pc.1 (jsNatOr (jsMapGet st.playerGames pc.1) 0 + 1) from rfl,
          jsMapGet_set_ne _ _ _ _ hpq]
        exact h1
      · rw [show (Elo.applyChange d i st pc).playerHistory =
            jsMapSet st.playerHistory pc.1 ((jsMapGet st.playerHistory pc.1).getD [] ++
              [{ date := d, rating := (jsMapGet st.playerRatings pc.1).getD 0 + (pc.2 : ℚ),
                 matchId := some i, change := pc.2 }]) from rfl,
          jsMapGet_set_ne _ _ _ _ hpq]
        exact h2

lemma Elo.applyChange_has_mono (d i : String) (st : Elo.EloState) (pc : String × ℤ)
    (p : String) (h : jsMapHas st.playerRatings p = true) :
    jsMapHas (Elo.applyChange d i st pc).playerRatings p = true := by
  rw [show (Elo.applyChange d i st pc).playerRatings =
      jsMapSet st.playerRatings pc.1 ((jsMapGet st.playerRatings pc.1).getD 0 + (pc.2 : ℚ)) from rfl,
    jsMapHas_set]
  simp [h]

lemma Elo.foldl_applyChange_StateInv (d i : String) (entries : List (String × ℤ))
    (st : Elo.EloState)
    (hkeys : ∀ p ∈ entries.map Prod.fst, jsMapHas st.playerRatings p = true)
    (h : Elo.StateInv st) :
    Elo.StateInv (entries.foldl (Elo.applyChange d i) st) := by
  induction entries generalizing st with
  | nil => exact h
  | cons q entries ih =>
    rw [List.foldl_cons]
    refine ih _ (fun p hp => Elo.applyChange_has_mono d i st q p (hkeys p (by simp [hp])))
      (Elo.applyChange_StateInv d i st q (hkeys q.1 (by simp)) h)

lemma Elo.foldl_applyChange_has_mono (d i : String) (entries : List (String × ℤ))
    (st : Elo.EloState) (p : String) (h : jsMapHas st.playerRatings p = true) :
    jsMapHas ((entries.foldl (Elo.applyChange d i) st).playerRatings) p = true := by
  induction entries generalizing st with
  | nil => exact h
  | cons q entries ih =>
    rw [List.foldl_cons]
    exact ih _ (Elo.applyChange_has_mono d i st q p h)

/-- All participants of the match list are keys of the ratings map. -/
def Elo.HasParticipants (st : Elo.EloState) (ms : List MatchRec) : Prop :=
  ∀ m ∈ ms, ∀ p ∈ m.participants, jsMapHas st.playerRatings p = true

lemma Elo.stateAfter_StateInv (ms : List MatchRec) (k : ℕ) (hk : k ≤ ms.length) :
    Elo.StateInv (Elo.stateAfter ms k) ∧
    Elo.HasParticipants (Elo.stateAfter ms k) ms := by
  induction k with
  | zero =>
    refine ⟨Elo.initState_StateInv ms, fun m hm p hp => ?_⟩
    exact Elo.initState_has ms p ((Elo.mem_allParticipants ms p).mpr ⟨m, hm, hp⟩)
  | succ n ih =>
    have hn : n < ms.length := by omega
    obtain ⟨hinv, hhp⟩ := ih (by omega)
    have hsucc := Elo.stateAfterWith_succ Elo.calculateRatingChange ms n hn
    have hkeys : ∀ p ∈ (Elo.processMatchWith Elo.calculateRatingChange (ms.get ⟨n, hn⟩)
        (Elo.stateAfter ms n).playerRatings (Elo.stateAfter ms n).playerGames).map Prod.fst,
        jsMapHas (Elo.stateAfter ms n).playerRatings p = true := by
      intro p hp
      exact hhp _ (List.get_mem ms n hn) p
        (Elo.mem_keys_processMatchWith Elo.calculateRatingChange _ _ _ p hp)
    constructor
    · show Elo.StateInv (Elo.stateAfterWith Elo.calculateRatingChange ms (n + 1))
      rw [hsucc, show Elo.stateAfterWith Elo.calculateRatingChange ms n =
        Elo.stateAfter ms n from rfl]
      have hfold := Elo.foldl_applyChange_StateInv (ms.get ⟨n, hn⟩).date (ms.get ⟨n, hn⟩).id
        (Elo.processMatchWith Elo.calculateRatingChange (ms.get ⟨n, hn⟩)
          (Elo.stateAfter ms n).playerRatings (Elo.stateAfter ms n).playerGames)
        (Elo.stateAfter ms n) hkeys hinv
      exact hfold
    · intro m hm p hp
      show jsMapHas (Elo.stateAfterWith Elo.calculateRatingChange ms (n + 1)).playerRatings p = true
      rw [hsucc, show Elo.stateAfterWith Elo.calculateRatingChange ms n =
        Elo.stateAfter ms n from rfl, Elo.processMatchesStepWith_playerRatings]
      exact Elo.foldl_applyChange_has_mono _ _ _ _ p (hhp m hm p hp)

/-- C8: every output player record carries a history of length
`gamesPlayed + 1` starting from the synthetic 1500 snapshot, a current
rating equal to 1500 plus the sum of all recorded changes, and a
`lastChange` equal to the change of the final history entry. -/
theorem c8_player_record_invariants (ms : List MatchRec) (r : Elo.PlayerResult)
    (hr : r ∈ (Elo.processAllMatches ms).players) :
    r.ratingHistory.length = r.gamesPlayed + 1 ∧
    (r.ratingHistory.head?.map (fun e => (e.rating, e.matchId, e.change)) =
      some (1500, none, 0)) ∧
    r.currentRating = 1500 + ((r.ratingHistory.map (fun e => (e.change : ℚ))).sum) ∧
    r.lastChange = ((r.ratingHistory.getLast?.map (fun e => e.change)).getD 0) := by
  obtain ⟨hinv, -⟩ := Elo.stateAfter_StateInv ms ms.length (le_refl _)
  obtain ⟨hnd, hfacts⟩ := hinv
  have hmem : r ∈ Elo.buildPlayers (Elo.stateAfter ms ms.length) := by
    have hperm := List.perm_insertionSort Elo.playersOrder
      (Elo.buildPlayers (Elo.stateAfter ms ms.length))
    have hr2 : r ∈ List.insertionSort Elo.playersOrder
        (Elo.buildPlayers (Elo.stateAfter ms ms.length)) := hr
    exact hperm.mem_iff.mp hr2
  obtain ⟨pr, hpr, hrec⟩ := List.mem_map.mp hmem
  have hget : jsMapGet (Elo.stateAfter ms ms.length).playerRatings pr.1 = some pr.2 :=
    jsMapGet_of_mem_nodup _ _ _ hpr hnd
  obtain ⟨g, h, hg, hh, hlen, hhead, hsum⟩ := hfacts pr.1 pr.2 hget
  subst hrec
  refine ⟨?_, ?_, ?_, ?_⟩
  · dsimp only
    rw [hh, hg]
    simpa using hlen
  · dsimp only
    rw [hh]
    simpa [Elo.INITIAL_RATING] using hhead
  · dsimp only
    rw [hh]
    simpa [Elo.INITIAL_RATING] using hsum
  · dsimp only
    rw [hh]
    simp only [Option.getD_some]
    by_cases hgt : h.length > 1
    · rw [if_pos hgt, List.getLastD_eq_getLast?]
      cases hgl : h.getLast? with
      | none =>
        rw [List.getLast?_eq_none_iff] at hgl
        rw [hgl] at hgt
        simp at hgt
      | some e => rfl
    · rw [if_neg hgt]
      have hone : h.length = 1 := by omega
      obtain ⟨a, rfl⟩ := List.length_eq_one.mp hone
      simp only [List.head?_cons, Option.map_some] at hhead
      injection hhead with hhead
      have hch : a.change = 0 := by
        have h2 := congrArg (fun t => t.2.2) hhead
        simpa using h2
      simp [hch]

/-- Witness for C8: the record of player `A` after the example match. -/
theorem c8_player_record_invariants_witness :
    (let r : Elo.PlayerResult :=
      { id := "A", name := "A", currentRating := 1520, gamesPlayed := 1,
        isCalibrated := false,
        ratingHistory :=
          [{ date := "2025-01-25", rating := 1500, matchId := none, change := 0 },
           { date := "2025-01-25", rating := 1520, matchId := some "m1", change := 20 }],
        lastChange := 20 }
    r.ratingHistory.length = r.gamesPlayed + 1 ∧
    (r.ratingHistory.head?.map (fun e => (e.rating, e.matchId, e.change)) =
      some (1500, none, 0)) ∧
    r.currentRating = 1500 + ((r.ratingHistory.map (fun e => (e.change : ℚ))).sum) ∧
    r.lastChange = ((r.ratingHistory.getLast?.map (fun e => e.change)).getD 0)) :=
  c8_player_record_invariants [exampleMatch] _ (by rw [processAll_exampleMatch]; decide)

/-! ## Name handling for the gender heuristics (JS strings as `List Char`) -/

/-- `String.prototype.toLowerCase` restricted to the alphabets in play:
Cyrillic А–Я and Ё, plus ASCII. -/
def jsCharToLower (c : Char) : Char :=
  if 0x410 ≤ c.toNat ∧ c.toNat ≤ 0x42F then Char.ofNat (c.toNat + 0x20)
  else if c.toNat = 0x401 then Char.ofNat 0x451
  else c.toLower

def jsToLower (s : List Char) : List Char := s.map jsCharToLower

/-- `split(' ')`: split on every single space, keeping empty pieces. -/
def jsSplitOnSpace : List Char → List (List Char)
  | [] => [[]]
  | c :: rest =>
    if c = ' ' then [] :: jsSplitOnSpace rest
    else
      match jsSplitOnSpace rest with
      | [] => [[c]]
      | h :: t => (c :: h) :: t

/-- `slice(-n)`. -/
def jsTakeRight (s : List Char) (n : ℕ) : List Char := s.drop (s.length - n)

/-- `endsWith`. -/
def jsEndsWith (s suffix : List Char) : Bool := suffix.isSuffixOf s

/-- The "relevant first name": `parts.length > 1 ? parts[1] : parts[0]`
over the space-split full name (both gender heuristics use this rule). -/
def jsFirstNameOf (fullName : List Char) : List Char :=
  let parts := jsSplitOnSpace fullName
  if parts.length > 1 then parts.getD 1 [] else parts.getD 0 []

/-! ## The import script's gender heuristic -/

def ImportScript.FEMALE_NAMES : List (List Char) :=
  ["Мария".data, "Анна".data, "Ольга".data, "Светлана".data, "Юлия".data,
   "Наталья".data, "Екатерина".data, "Анастасия".data, "Елена".data, "Татьяна".data,
   "Ирина".data, "Дарья".data, "Ксения".data, "Евгения".data, "Василиса".data,
   "Инна".data, "Жанна".data, "Нина".data]

def ImportScript.MALE_EXCEPTIONS : List (List Char) :=
  ["Никита".data, "Илья".data, "Кирилл".data]

/-- `getGender` of the server import script: set lookup on the first name,
explicit male exceptions, then lowercase suffix tests — a trailing "ья" is
male, otherwise a trailing "а" or "я" is female. -/
def ImportScript.getGender (fullName : List Char) : String :=
  let firstName := jsFirstNameOf fullName
  if ImportScript.FEMALE_NAMES.contains firstName then "female"
  else if ImportScript.MALE_EXCEPTIONS.contains firstName then "male"
  else
    let lastChar := jsToLower (jsTakeRight firstName 1)
    let lastTwoChars := jsToLower (jsTakeRight firstName 2)
    if lastTwoChars = "ья".data then "male"
    else if lastChar = "а".data ∨ lastChar = "я".data then "female"
    else "male"

/-! ## The tournament UI module: gender, Italian standings -/

def TournamentUI.FEMALE_NAMES : List (List Char) :=
  ["Мария".data, "Анастасия".data, "Юлия".data, "Светлана".data, "Ольга".data,
   "Анна".data, "Наталья".data, "Екатерина".data, "Елена".data, "Ирина".data,
   "Татьяна".data, "Дарья".data, "Ксения".data, "Евгения".data, "Инна".data,
   "Василиса".data, "Жанна".data, "Нина".data,
   "Преображенская Ек.".data, "Неизвестная Ксения".data]

def TournamentUI.maleExceptions : List (List Char) :=
  ["Никита".data, "Илья".data, "Кирилл".data]

/-- `getGender` of the tournament UI: full-name lookup, first-name lookup,
then the `endsWith` suffix rule with the male exceptions. -/
def TournamentUI.getGenderChars (fullName : List Char) : String :=
  if TournamentUI.FEMALE_NAMES.contains fullName then "female"
  else
    let firstName := jsFirstNameOf fullName
    if TournamentUI.FEMALE_NAMES.contains firstName then "female"
    else if (jsEndsWith firstName "а".data || jsEndsWith firstName "я".data ||
        jsEndsWith firstName "ья".data) &&
          !(TournamentUI.maleExceptions.contains firstName) then "female"
    else "male"

def TournamentUI.getGender (fullName : String) : String :=
  TournamentUI.getGenderChars fullName.data

/-- One row of a player's per-match detail list. -/
structure TournamentUI.MatchDetail where
  id : String
  myScore : ℕ
  oppScore : ℕ
  won : Bool
  diff : ℕ
  points : ℕ
deriving DecidableEq

/-- The per-player accumulator stored in the standings map. -/
structure TournamentUI.PlayerAcc where
  name : String
  gender : String
  games : ℕ
  wins : ℕ
  losses : ℕ
  italianPoints : ℕ
  ballsFor : ℕ
  ballsAgainst : ℕ
  matchDetails : List TournamentUI.MatchDetail
deriving DecidableEq

def TournamentUI.ensurePlayer (players : List (String × TournamentUI.PlayerAcc))
    (playerName : String) : List (String × TournamentUI.PlayerAcc) :=
  if jsMapHas players playerName then players
  else jsMapSet players playerName
    { name := playerName, gender := TournamentUI.getGender playerName,
      games := 0, wins := 0, losses := 0, italianPoints := 0,
      ballsFor := 0, ballsAgainst := 0, matchDetails := [] }

def TournamentUI.updatePlayer (matchId : String) (myScore oppScore : ℕ)
    (won : Bool) (players : List (String × TournamentUI.PlayerAcc))
    (playerName : String) : List (String × TournamentUI.PlayerAcc) :=
  match jsMapGet players playerName with
  | none => players
  | some p =>
    let pts := TournamentUI.getItalianPoints myScore oppScore
    jsMapSet players playerName
      { p with games := p.games + 1,
               wins := p.wins + (if won then 1 else 0),
               losses := p.losses + (if won then 0 else 1),
               italianPoints := p.italianPoints + pts,
               ballsFor := p.ballsFor + myScore,
               ballsAgainst := p.ballsAgainst + oppScore,
               matchDetails := p.matchDetails ++
                 [{ id := matchId, myScore := myScore, oppScore := oppScore,
                    won := won, diff := ((myScore : ℤ) - (oppScore : ℤ)).natAbs,
                    points := pts }] }

/-- One match of the standings accumulation: skip draws, create missing
players, then update both teams. -/
def TournamentUI.standingsStep (players : List (String × TournamentUI.PlayerAcc))
    (m : MatchRec) : List (String × TournamentUI.PlayerAcc) :=
  if m.score.1 == m.score.2 then players
  else
    let team1Won := decide (m.score.2 < m.score.1)
    let players1 := [m.team1.1, m.team1.2, m.team2.1, m.team2.2].foldl
      TournamentUI.ensurePlayer players
    let players2 := [m.team1.1, m.team1.2].foldl
      (TournamentUI.updatePlayer m.id m.score.1 m.score.2 team1Won) players1
    [m.team2.1, m.team2.2].foldl
      (TournamentUI.updatePlayer m.id m.score.2 m.score.1 (!team1Won)) players2

def TournamentUI.standingsAccum (ms : List MatchRec) :
    List (String × TournamentUI.PlayerAcc) :=
  ms.foldl TournamentUI.standingsStep []

/-- A standings row: the accumulator plus the derived `ballsDiff`. -/
structure TournamentUI.StandingRow extends TournamentUI.PlayerAcc where
  ballsDiff : ℤ
deriving DecidableEq

def TournamentUI.addBallsDiff (p : TournamentUI.PlayerAcc) :
    TournamentUI.StandingRow :=
  { p with ballsDiff := (p.ballsFor : ℤ) - (p.ballsAgainst : ℤ) }

/-- The rows before sorting: map values in insertion order, gender-filtered,
with `ballsDiff` added. -/
def TournamentUI.standingsRows (genderFilter : String) (ms : List MatchRec) :
    List TournamentUI.StandingRow :=
  (((TournamentUI.standingsAccum ms).map Prod.snd).filter
    (fun p => genderFilter == "all" || p.gender == genderFilter)).map
      TournamentUI.addBallsDiff

/-- The sort comparator: Italian points first, then balls difference. -/
def TournamentUI.standingsCmp (a b : TournamentUI.StandingRow) : ℤ :=
  if b.italianPoints ≠ a.italianPoints then
    (b.italianPoints : ℤ) - (a.italianPoints : ℤ)
  else b.ballsDiff - a.ballsDiff

def TournamentUI.standingsLe (a b : TournamentUI.StandingRow) : Prop :=
  TournamentUI.standingsCmp a b ≤ 0

instance : DecidableRel TournamentUI.standingsLe := fun a b =>
  inferInstanceAs (Decidable (TournamentUI.standingsCmp a b ≤ 0))

/-- `calculateStandings` of the tournament UI: the stable sort of the rows
under the comparator. -/
def TournamentUI.calculateStandings (genderFilter : String)
    (ms : List MatchRec) : List TournamentUI.StandingRow :=
  List.insertionSort TournamentUI.standingsLe
    (TournamentUI.standingsRows genderFilter ms)

/-! ## The basic standings variant (`src/modules/tournamentUI.js`) -/

structure BasicUI.PlayerAcc where
  name : String
  games : ℕ
  wins : ℕ
  losses : ℕ
  pointsFor : ℕ
  pointsAgainst : ℕ
deriving DecidableEq

structure BasicUI.StandingRow extends BasicUI.PlayerAcc where
  pointsDiff : ℤ
  winRate : ℤ
deriving DecidableEq

def BasicUI.ensurePlayer (players : List (String × BasicUI.PlayerAcc))
    (playerName : String) : List (String × BasicUI.PlayerAcc) :=
  if jsMapHas players playerName then players
  else jsMapSet players playerName
    { name := playerName, games := 0, wins := 0, losses := 0,
      pointsFor := 0, pointsAgainst := 0 }

def BasicUI.updatePlayer (myScore oppScore : ℕ) (won : Bool)
    (players : List (String × BasicUI.PlayerAcc)) (playerName : String) :
    List (String × BasicUI.PlayerAcc) :=
  match jsMapGet players playerName with
  | none => players
  | some p =>
    jsMapSet players playerName
      { p with games := p.games + 1,
               wins := p.wins + (if won then 1 else 0),
               losses := p.losses + (if won then 0 else 1),
               pointsFor := p.pointsFor + myScore,
               pointsAgainst := p.pointsAgainst + oppScore }

def BasicUI.standingsStep (players : List (String × BasicUI.PlayerAcc))
    (m : MatchRec) : List (String × BasicUI.PlayerAcc) :=
  if m.score.1 == m.score.2 then players
  else
    let team1Won := decide (m.score.2 < m.score.1)
    let players1 := [m.team1.1, m.team1.2, m.team2.1, m.team2.2].foldl
      BasicUI.ensurePlayer players
    let players2 := [m.team1.1, m.team1.2].foldl
      (BasicUI.updatePlayer m.score.1 m.score.2 team1Won) players1
    [m.team2.1, m.team2.2].foldl
      (BasicUI.updatePlayer m.score.2 m.score.1 (!team1Won)) players2

def BasicUI.standingsAccum (ms : List MatchRec) :
    List (String × BasicUI.PlayerAcc) :=
  ms.foldl BasicUI.standingsStep []

def BasicUI.addDerived (p : BasicUI.PlayerAcc) : BasicUI.StandingRow :=
  { p with pointsDiff := (p.pointsFor : ℤ) - (p.pointsAgainst : ℤ),
           winRate :=
             if p.games > 0 then round (((p.wins : ℚ) / (p.games : ℚ)) * 100)
             else 0 }

def BasicUI.standingsCmp (a b : BasicUI.StandingRow) : ℤ :=
  if b.wins ≠ a.wins then (b.wins : ℤ) - (a.wins : ℤ)
  else b.pointsDiff - a.pointsDiff

def BasicUI.standingsLe (a b : BasicUI.StandingRow) : Prop :=
  BasicUI.standingsCmp a b ≤ 0

instance : DecidableRel BasicUI.standingsLe := fun a b =>
  inferInstanceAs (Decidable (BasicUI.standingsCmp a b ≤ 0))

/-- `calculateStandings` of the basic variant: sort by wins, then by points
difference. -/
def BasicUI.calculateStandings (ms : List MatchRec) : List BasicUI.StandingRow :=
  List.insertionSort BasicUI.standingsLe
    ((BasicUI.standingsAccum ms).map Prod.snd |>.map BasicUI.addDerived)

/-! ## Claim C9: draws are ignored entirely -/

lemma TournamentUI.standingsStep_draw (players : List (String × TournamentUI.PlayerAcc))
    (m : MatchRec) (h : m.score.1 = m.score.2) :
    TournamentUI.standingsStep players m = players := by
  unfold TournamentUI.standingsStep
  rw [if_pos (beq_iff_eq.mpr h)]

lemma BasicUI.basicStep_draw (players : List (String × BasicUI.PlayerAcc))
    (m : MatchRec) (h : m.score.1 = m.score.2) :
    BasicUI.standingsStep players m = players := by
  unfold BasicUI.standingsStep
  rw [if_pos (beq_iff_eq.mpr h)]

lemma TournamentUI.standingsAccum_filter (ms : List MatchRec) :
    TournamentUI.standingsAccum (ms.filter (fun m => !(m.score.1 == m.score.2))) =
      TournamentUI.standingsAccum ms := by
  unfold TournamentUI.standingsAccum
  suffices h : ∀ acc, (ms.filter (fun m => !(m.score.1 == m.score.2))).foldl
      TournamentUI.standingsStep acc = ms.foldl TournamentUI.standingsStep acc from h []
  induction ms with
  | nil => intro acc; rfl
  | cons m ms ih =>
    intro acc
    by_cases hd : (m.score.1 == m.score.2) = true
    · rw [List.filter_cons_of_neg (by simp [hd]), List.foldl_cons,
        TournamentUI.standingsStep_draw acc m (by simpa using hd)]
      exact ih acc
    · rw [List.filter_cons_of_pos (by simp [hd]), List.foldl_cons, List.foldl_cons]
      exact ih _

lemma BasicUI.basicAccum_filter (ms : List MatchRec) :
    BasicUI.standingsAccum (ms.filter (fun m => !(m.score.1 == m.score.2))) =
      BasicUI.standingsAccum ms := by
  unfold BasicUI.standingsAccum
  suffices h : ∀ acc, (ms.filter (fun m => !(m.score.1 == m.score.2))).foldl
      BasicUI.standingsStep acc = ms.foldl BasicUI.standingsStep acc from h []
  induction ms with
  | nil => intro acc; rfl
  | cons m ms ih =>
    intro acc
    by_cases hd : (m.score.1 == m.score.2) = true
    · rw [List.filter_cons_of_neg (by simp [hd]), List.foldl_cons,
        BasicUI.basicStep_draw acc m (by simpa using hd)]
      exact ih acc
    · rw [List.filter_cons_of_pos (by simp [hd]), List.foldl_cons, List.foldl_cons]
      exact ih _

lemma TournamentUI.standingsAccum_all_draws (ms : List MatchRec) :
    TournamentUI.standingsAccum (ms.filter (fun m => m.score.1 == m.score.2)) = [] := by
  unfold TournamentUI.standingsAccum
  suffices h : ∀ (l : List MatchRec), (∀ m ∈ l, m.score.1 = m.score.2) →
      ∀ acc, l.foldl TournamentUI.standingsStep acc = acc by
    refine h _ (fun m hm => ?_) []
    have := List.of_mem_filter hm
    simpa using this
  intro l hl
  induction l with
  | nil => intro acc; rfl
  | cons m l ih =>
    intro acc
    rw [List.foldl_cons, TournamentUI.standingsStep_draw acc m (hl m (by simp))]
    exact ih (fun m2 hm2 => hl m2 (by simp [hm2])) acc

lemma BasicUI.basicAccum_all_draws (ms : List MatchRec) :
    BasicUI.standingsAccum (ms.filter (fun m => m.score.1 == m.score.2)) = [] := by
  unfold BasicUI.standingsAccum
  suffices h : ∀ (l : List MatchRec), (∀ m ∈ l, m.score.1 = m.score.2) →
      ∀ acc, l.foldl BasicUI.standingsStep acc = acc by
    refine h _ (fun m hm => ?_) []
    have := List.of_mem_filter hm
    simpa using this
  intro l hl
  induction l with
  | nil => intro acc; rfl
  | cons m l ih =>
    intro acc
    rw [List.foldl_cons, BasicUI.basicStep_draw acc m (hl m (by simp))]
    exact ih (fun m2 hm2 => hl m2 (by simp [hm2])) acc

/-- C9: both `calculateStandings` variants ignore drawn matches entirely —
the output on any match list equals the output on its sublist of matches
with unequal scores, and a list consisting only of draws yields empty
standings. -/
theorem c9_draws_ignored (genderFilter : String) (ms : List MatchRec) :
    TournamentUI.calculateStandings genderFilter ms =
      TournamentUI.calculateStandings genderFilter
        (ms.filter (fun m => !(m.score.1 == m.score.2))) ∧
    BasicUI.calculateStandings ms =
      BasicUI.calculateStandings (ms.filter (fun m => !(m.score.1 == m.score.2))) ∧
    TournamentUI.calculateStandings genderFilter
      (ms.filter (fun m => m.score.1 == m.score.2)) = [] ∧
    BasicUI.calculateStandings (ms.filter (fun m => m.score.1 == m.score.2)) = [] := by
  refine ⟨?_, ?_, ?_, ?_⟩
  · unfold TournamentUI.calculateStandings TournamentUI.standingsRows
    rw [TournamentUI.standingsAccum_filter]
  · unfold BasicUI.calculateStandings
    rw [BasicUI.basicAccum_filter]
  · unfold TournamentUI.calculateStandings TournamentUI.standingsRows
    rw [TournamentUI.standingsAccum_all_draws]
    rfl
  · unfold BasicUI.calculateStandings
    rw [BasicUI.basicAccum_all_draws]
    rfl

/-! ## Claim C10: the gender suffix rule -/

lemma jsToLower_takeRight (s : List Char) (n : ℕ) :
    jsToLower (jsTakeRight s n) = jsTakeRight (jsToLower s) n := by
  unfold jsToLower jsTakeRight
  rw [List.map_drop, List.length_map]

lemma jsEndsWith_iff_takeRight (s t : List Char) :
    jsEndsWith s t = true ↔ jsTakeRight s t.length = t := by
  unfold jsEndsWith jsTakeRight
  rw [List.isSuffixOf_iff_suffix, List.suffix_iff_eq_drop]
  constructor
  · intro h
    exact h.symm
  · intro h
    exact h.symm

/-- C10 counterexample: the import script's `getGender` sends first names
ending in "ья" (outside its female-name set) to "male", e.g. "Марья",
refuting the claimed "ends in а/я/ья ⇒ female" rule for the cited code. -/
theorem c10_counterexample :
    ¬ ((∀ fullName : List Char,
          jsFirstNameOf fullName ∉ ImportScript.FEMALE_NAMES →
          (ImportScript.getGender fullName = "female" ↔
            ((jsEndsWith (jsFirstNameOf fullName) "а".data ∨
              jsEndsWith (jsFirstNameOf fullName) "я".data ∨
              jsEndsWith (jsFirstNameOf fullName) "ья".data) ∧
              jsFirstNameOf fullName ∉ ImportScript.MALE_EXCEPTIONS))) ∧
       (∀ fullName : List Char,
          jsFirstNameOf fullName ∉ TournamentUI.FEMALE_NAMES →
          (TournamentUI.getGenderChars fullName = "female" ↔
            ((jsEndsWith (jsFirstNameOf fullName) "а".data ∨
              jsEndsWith (jsFirstNameOf fullName) "я".data ∨
              jsEndsWith (jsFirstNameOf fullName) "ья".data) ∧
              jsFirstNameOf fullName ∉ TournamentUI.maleExceptions)))) := by
  intro h
  have h2 := h.1 "Марья".data (by decide)
  have h3 : ImportScript.getGender "Марья".data = "female" := h2.mpr (by decide)
  exact absurd h3 (by decide)

lemma jsEndsWith_ya_of_softya (s : List Char)
    (h : jsEndsWith s "ья".data = true) : jsEndsWith s "я".data = true := by
  unfold jsEndsWith at h ⊢
  rw [List.isSuffixOf_iff_suffix] at h ⊢
  exact List.IsSuffix.trans (by decide) h

/-- C10 (amended): outside the female-name sets, the import script's
heuristic returns "female" iff the first name's lowercased ending is "а" or
"я" but not "ья" and the name is not a male exception (names ending in "ья"
are male); the tournament UI's heuristic — when additionally the full name
is not in its set — returns "female" iff the first name ends in "а" or "я"
(the "ья" test being subsumed) and is not a male exception. -/
theorem c10_gender_suffix_amended (fullName : List Char) :
    (jsFirstNameOf fullName ∉ ImportScript.FEMALE_NAMES →
      (ImportScript.getGender fullName = "female" ↔
        (jsFirstNameOf fullName ∉ ImportScript.MALE_EXCEPTIONS ∧
         jsEndsWith (jsToLower (jsFirstNameOf fullName)) "ья".data = false ∧
         (jsEndsWith (jsToLower (jsFirstNameOf fullName)) "а".data = true ∨
          jsEndsWith (jsToLower (jsFirstNameOf fullName)) "я".data = true)))) ∧
    (fullName ∉ TournamentUI.FEMALE_NAMES →
      jsFirstNameOf fullName ∉ TournamentUI.FEMALE_NAMES →
      (TournamentUI.getGenderChars fullName = "female" ↔
        ((jsEndsWith (jsFirstNameOf fullName) "а".data = true ∨
          jsEndsWith (jsFirstNameOf fullName) "я".data = true) ∧
         jsFirstNameOf fullName ∉ TournamentUI.maleExceptions))) := by
  have heya : (jsEndsWith (jsToLower (jsFirstNameOf fullName)) "ья".data = true) ↔
      jsToLower (jsTakeRight (jsFirstNameOf fullName) 2) = "ья".data := by
    rw [jsEndsWith_iff_takeRight, show ("ья".data).length = 2 from rfl,
      ← jsToLower_takeRight]
  have hea : (jsEndsWith (jsToLower (jsFirstNameOf fullName)) "а".data = true) ↔
      jsToLower (jsTakeRight (jsFirstNameOf fullName) 1) = "а".data := by
    rw [jsEndsWith_iff_takeRight, show ("а".data).length = 1 from rfl,
      ← jsToLower_takeRight]
  have hey : (jsEndsWith (jsToLower (jsFirstNameOf fullName)) "я".data = true) ↔
      jsToLower (jsTakeRight (jsFirstNameOf fullName) 1) = "я".data := by
    rw [jsEndsWith_iff_takeRight, show ("я".data).length = 1 from rfl,
      ← jsToLower_takeRight]
  constructor
  · intro hmem
    have hc1 : ImportScript.FEMALE_NAMES.contains (jsFirstNameOf fullName) = false := by
      cases hc : ImportScript.FEMALE_NAMES.contains (jsFirstNameOf fullName)
      · rfl
      · exact absurd (List.elem_iff.mp hc) hmem
    by_cases hexc : jsFirstNameOf fullName ∈ ImportScript.MALE_EXCEPTIONS
    · have hc2 : ImportScript.MALE_EXCEPTIONS.contains (jsFirstNameOf fullName) = true :=
        List.elem_iff.mpr hexc
      unfold ImportScript.getGender
      simp only [hc1, hc2, Bool.false_eq_true, if_false, if_true]
      constructor
      · intro h
        exact absurd h (by simp)
      · rintro ⟨h1, -⟩
        exact absurd hexc h1
    · have hc2 : ImportScript.MALE_EXCEPTIONS.contains (jsFirstNameOf fullName) = false := by
        cases hc : ImportScript.MALE_EXCEPTIONS.contains (jsFirstNameOf fullName)
        · rfl
        · exact absurd (List.elem_iff.mp hc) hexc
      unfold ImportScript.getGender
      simp only [hc1, hc2, Bool.false_eq_true, if_false]
      by_cases h2 : jsToLower (jsTakeRight (jsFirstNameOf fullName) 2) = "ья".data
      · simp only [h2, if_true, if_pos rfl]
        constructor
        · intro h
          exact absurd h (by simp)
        · rintro ⟨-, hb, -⟩
          rw [heya.mpr h2] at hb
          exact absurd hb (by simp)
      · rw [if_neg h2]
        by_cases h1 : jsToLower (jsTakeRight (jsFirstNameOf fullName) 1) = "а".data ∨
            jsToLower (jsTakeRight (jsFirstNameOf fullName) 1) = "я".data
        · rw [if_pos h1]
          constructor
          · rintro -
            refine ⟨hexc, ?_, ?_⟩
            · cases he : jsEndsWith (jsToLower (jsFirstNameOf fullName)) "ья".data
              · rfl
              · exact absurd (heya.mp he) h2
            · rcases h1 with h1 | h1
              · exact Or.inl (hea.mpr h1)
              · exact Or.inr (hey.mpr h1)
          · rintro -
            rfl
        · rw [if_neg h1]
          constructor
          · intro h
            exact absurd h (by simp)
          · rintro ⟨-, -, hc⟩
            rcases hc with hc | hc
            · exact absurd (Or.inl (hea.mp hc)) h1
            · exact absurd (Or.inr (hey.mp hc)) h1
  · intro hfull hmem
    have hcf : TournamentUI.FEMALE_NAMES.contains fullName = false := by
      cases hc : TournamentUI.FEMALE_NAMES.contains fullName
      · rfl
      · exact absurd (List.elem_iff.mp hc) hfull
    have hcn : TournamentUI.FEMALE_NAMES.contains (jsFirstNameOf fullName) = false := by
      cases hc : TournamentUI.FEMALE_NAMES.contains (jsFirstNameOf fullName)
      · rfl
      · exact absurd (List.elem_iff.mp hc) hmem
    unfold TournamentUI.getGenderChars
    simp only [hcf, hcn, Bool.false_eq_true, if_false]
    by_cases hsuf : (jsEndsWith (jsFirstNameOf fullName) "а".data ||
        jsEndsWith (jsFirstNameOf fullName) "я".data ||
        jsEndsWith (jsFirstNameOf fullName) "ья".data) = true
    · by_cases hexc : jsFirstNameOf fullName ∈ TournamentUI.maleExceptions
      · have hc2 : TournamentUI.maleExceptions.contains (jsFirstNameOf fullName) = true :=
          List.elem_iff.mpr hexc
        rw [if_neg (by simp [hsuf, hc2, hexc])]
        constructor
        · intro h
          exact absurd h (by simp)
        · rintro ⟨-, he⟩
          exact absurd hexc he
      · have hc2 : TournamentUI.maleExceptions.contains (jsFirstNameOf fullName) = false := by
          cases hc : TournamentUI.maleExceptions.contains (jsFirstNameOf fullName)
          · rfl
          · exact absurd (List.elem_iff.mp hc) hexc
        rw [if_pos (by simp [hsuf, hc2, hexc])]
        constructor
        · rintro -
          refine ⟨?_, hexc⟩
          simp only [Bool.or_eq_true] at hsuf
          rcases hsuf with (h | h) | h
          · exact Or.inl h
          · exact Or.inr h
          · exact Or.inr (jsEndsWith_ya_of_softya _ h)
        · rintro -
          rfl
    · rw [if_neg (by simp only [Bool.and_eq_true] at *; tauto)]
      constructor
      · intro h
        exact absurd h (by simp)
      · rintro ⟨hc, -⟩
        refine absurd ?_ hsuf
        simp only [Bool.or_eq_true]
        rcases hc with h | h
        · exact Or.inl (Or.inl h)
        · exact Or.inl (Or.inr h)

/-- Witness for the amended C10 at a concrete name outside the sets. -/
theorem c10_gender_suffix_amended_witness :
    ImportScript.getGender "Сидорова Ленора".data = "female" ↔
      (jsFirstNameOf "Сидорова Ленора".data ∉ ImportScript.MALE_EXCEPTIONS ∧
       jsEndsWith (jsToLower (jsFirstNameOf "Сидорова Ленора".data)) "ья".data = false ∧
       (jsEndsWith (jsToLower (jsFirstNameOf "Сидорова Ленора".data)) "а".data = true ∨
        jsEndsWith (jsToLower (jsFirstNameOf "Сидорова Ленора".data)) "я".data = true)) :=
  (c10_gender_suffix_amended "Сидорова Ленора".data).1 (by decide)

/-! ## Claim C6: the standings aggregation is a monoid over matches -/

/-- The numeric per-player accumulators of a standings row. -/
structure TournamentUI.Stats where
  games : ℕ
  wins : ℕ
  losses : ℕ
  italianPoints : ℕ
  ballsFor : ℕ
  ballsAgainst : ℕ
deriving DecidableEq

def TournamentUI.Stats.add (a b : TournamentUI.Stats) : TournamentUI.Stats :=
  { games := a.games + b.games, wins := a.wins + b.wins,
    losses := a.losses + b.losses, italianPoints := a.italianPoints + b.italianPoints,
    ballsFor := a.ballsFor + b.ballsFor, ballsAgainst := a.ballsAgainst + b.ballsAgainst }

instance : Zero TournamentUI.Stats :=
  ⟨{ games := 0, wins := 0, losses := 0, italianPoints := 0, ballsFor := 0,
     ballsAgainst := 0 }⟩

instance : Add TournamentUI.Stats := ⟨TournamentUI.Stats.add⟩

instance : AddCommMonoid TournamentUI.Stats where
  add_assoc a b c := by
    show TournamentUI.Stats.add (TournamentUI.Stats.add a b) c =
      TournamentUI.Stats.add a (TournamentUI.Stats.add b c)
    cases a; cases b; cases c
    simp [TournamentUI.Stats.add, Nat.add_assoc]
  zero_add a := by
    show TournamentUI.Stats.add ⟨0, 0, 0, 0, 0, 0⟩ a = a
    cases a
    simp [TournamentUI.Stats.add]
  add_zero a := by
    show TournamentUI.Stats.add a ⟨0, 0, 0, 0, 0, 0⟩ = a
    cases a
    simp [TournamentUI.Stats.add]
  add_comm a b := by
    show TournamentUI.Stats.add a b = TournamentUI.Stats.add b a
    cases a; cases b
    simp [TournamentUI.Stats.add, Nat.add_comm]
  nsmul := nsmulRec

/-- The stats carried by a player accumulator. -/
def TournamentUI.PlayerAcc.stats (p : TournamentUI.PlayerAcc) : TournamentUI.Stats :=
  { games := p.games, wins := p.wins, losses := p.losses,
    italianPoints := p.italianPoints, ballsFor := p.ballsFor,
    ballsAgainst := p.ballsAgainst }

/-- The stats of a player's row in a standings list (zero when absent). -/
def TournamentUI.rowStats (rows : List TournamentUI.StandingRow) (p : String) :
    TournamentUI.Stats :=
  match rows.find? (fun r => r.name == p) with
  | some r => r.toPlayerAcc.stats
  | none => 0

/-- The stats of a player in the accumulator map (zero when absent). -/
def TournamentUI.accStats (acc : List (String × TournamentUI.PlayerAcc))
    (p : String) : TournamentUI.Stats :=
  match jsMapGet acc p with
  | some a => a.stats
  | none => 0

/-- One team slot's contribution to a player's stats. -/
def TournamentUI.slotStats (my opp : ℕ) (won : Bool) : TournamentUI.Stats :=
  { games := 1, wins := if won then 1 else 0, losses := if won then 0 else 1,
    italianPoints := TournamentUI.getItalianPoints my opp, ballsFor := my,
    ballsAgainst := opp }

/-- A match's total contribution to one player's numeric accumulators. -/
def TournamentUI.contrib (p : String) (m : MatchRec) : TournamentUI.Stats :=
  if m.score.1 = m.score.2 then 0
  else
    let won := decide (m.score.2 < m.score.1)
    (if m.team1.1 = p then TournamentUI.slotStats m.score.1 m.score.2 won else 0) +
    ((if m.team1.2 = p then TournamentUI.slotStats m.score.1 m.score.2 won else 0) +
     ((if m.team2.1 = p then TournamentUI.slotStats m.score.2 m.score.1 (!won) else 0) +
      (if m.team2.2 = p then TournamentUI.slotStats m.score.2 m.score.1 (!won) else 0)))

lemma jsMapGet_eq_none_of_not_has {α : Type} (m : List (String × α)) (k : String)
    (h : jsMapHas m k = false) : jsMapGet m k = none := by
  cases hg : jsMapGet m k with
  | none => rfl
  | some v => rw [jsMapHas, hg] at h; simp at h

lemma mem_of_jsMapGet_some {α : Type} (m : List (String × α)) (k : String) (v : α)
    (h : jsMapGet m k = some v) : (k, v) ∈ m := by
  induction m with
  | nil => simp [jsMapGet] at h
  | cons q m ih =>
    rw [jsMapGet] at h
    by_cases hq : q.1 = k
    · rw [if_pos (by simp [hq])] at h
      injection h with h
      exact List.mem_cons.mpr (Or.inl (by cases q; simp_all))
    · rw [if_neg (by simp [hq])] at h
      exact List.mem_cons.mpr (Or.inr (ih h))

lemma TournamentUI.accStats_ensurePlayer
    (acc : List (String × TournamentUI.PlayerAcc)) (q p : String) :
    TournamentUI.accStats (TournamentUI.ensurePlayer acc q) p =
      TournamentUI.accStats acc p := by
  rw [TournamentUI.ensurePlayer]
  by_cases hh : jsMapHas acc q = true
  · rw [if_pos hh]
  · rw [if_neg hh]
    by_cases hpq : p = q
    · subst hpq
      simp only [TournamentUI.accStats, jsMapGet_set_self,
        jsMapGet_eq_none_of_not_has acc p (by simpa using hh)]
      rfl
    · simp only [TournamentUI.accStats, jsMapGet_set_ne _ _ _ _ hpq]

lemma TournamentUI.accStats_updatePlayer (mid : String) (my opp : ℕ) (won : Bool)
    (acc : List (String × TournamentUI.PlayerAcc)) (q p : String)
    (hq : jsMapHas acc q = true) :
    TournamentUI.accStats (TournamentUI.updatePlayer mid my opp won acc q) p =
      TournamentUI.accStats acc p +
        (if q = p then TournamentUI.slotStats my opp won else 0) := by
  rw [jsMapHas] at hq
  obtain ⟨a, ha⟩ := Option.isSome_iff_exists.mp hq
  simp only [TournamentUI.updatePlayer, ha]
  by_cases hpq : q = p
  · subst hpq
    rw [if_pos rfl]
    simp only [TournamentUI.accStats, jsMapGet_set_self, ha]
    rfl
  · rw [if_neg hpq]
    simp only [TournamentUI.accStats,
      jsMapGet_set_ne _ _ _ _ (fun e => hpq e.symm)]
    exact (add_zero _).symm

lemma TournamentUI.has_ensurePlayer_self
    (acc : List (String × TournamentUI.PlayerAcc)) (q : String) :
    jsMapHas (TournamentUI.ensurePlayer acc q) q = true := by
  rw [TournamentUI.ensurePlayer]
  by_cases hh : jsMapHas acc q = true
  · rw [if_pos hh]; exact hh
  · rw [if_neg hh, jsMapHas_set]; simp

lemma TournamentUI.has_ensurePlayer_mono
    (acc : List (String × TournamentUI.PlayerAcc)) (q p : String)
    (hp : jsMapHas acc p = true) :
    jsMapHas (TournamentUI.ensurePlayer acc q) p = true := by
  rw [TournamentUI.ensurePlayer]
  by_cases hh : jsMapHas acc q = true
  · rw [if_pos hh]; exact hp
  · rw [if_neg hh, jsMapHas_set, hp]; simp

lemma TournamentUI.has_updatePlayer_mono (mid : String) (my opp : ℕ) (won : Bool)
    (acc : List (String × TournamentUI.PlayerAcc)) (q p : String)
    (hp : jsMapHas acc p = true) :
    jsMapHas (TournamentUI.updatePlayer mid my opp won acc q) p = true := by
  cases ha : jsMapGet acc q with
  | none => simpa only [TournamentUI.updatePlayer, ha] using hp
  | some a =>
    simp only [TournamentUI.updatePlayer, ha, jsMapHas_set, hp]
    simp

lemma TournamentUI.accStats_standingsStep
    (acc : List (String × TournamentUI.PlayerAcc)) (m : MatchRec) (p : String) :
    TournamentUI.accStats (TournamentUI.standingsStep acc m) p =
      TournamentUI.accStats acc p + TournamentUI.contrib p m := by
  rw [TournamentUI.standingsStep, TournamentUI.contrib]
  by_cases hd : m.score.1 = m.score.2
  · rw [if_pos (by simpa using hd), if_pos hd, add_zero]
  · rw [if_neg (by simpa using hd), if_neg hd]
    dsimp only
    have e1 := TournamentUI.has_ensurePlayer_self acc m.team1.1
    have h11 : jsMapHas ([m.team1.1, m.team1.2, m.team2.1, m.team2.2].foldl
        TournamentUI.ensurePlayer acc) m.team1.1 = true := by
      simp only [List.foldl_cons, List.foldl_nil]
      exact TournamentUI.has_ensurePlayer_mono _ _ _
        (TournamentUI.has_ensurePlayer_mono _ _ _
          (TournamentUI.has_ensurePlayer_mono _ _ _ e1))
    have h12 : jsMapHas ([m.team1.1, m.team1.2, m.team2.1, m.team2.2].foldl
        TournamentUI.ensurePlayer acc) m.team1.2 = true := by
      simp only [List.foldl_cons, List.foldl_nil]
      exact TournamentUI.has_ensurePlayer_mono _ _ _
        (TournamentUI.has_ensurePlayer_mono _ _ _
          (TournamentUI.has_ensurePlayer_self _ _))
    have h21 : jsMapHas ([m.team1.1, m.team1.2, m.team2.1, m.team2.2].foldl
        TournamentUI.ensurePlayer acc) m.team2.1 = true := by
      simp only [List.foldl_cons, List.foldl_nil]
      exact TournamentUI.has_ensurePlayer_mono _ _ _
        (TournamentUI.has_ensurePlayer_self _ _)
    have h22 : jsMapHas ([m.team1.1, m.team1.2, m.team2.1, m.team2.2].foldl
        TournamentUI.ensurePlayer acc) m.team2.2 = true := by
      simp only [List.foldl_cons, List.foldl_nil]
      exact TournamentUI.has_ensurePlayer_self _ _
    simp only [List.foldl_cons, List.foldl_nil] at h11 h12 h21 h22 ⊢
    rw [TournamentUI.accStats_updatePlayer _ _ _ _ _ _ _
      (TournamentUI.has_updatePlayer_mono _ _ _ _ _ _ _
        (TournamentUI.has_updatePlayer_mono _ _ _ _ _ _ _
          (TournamentUI.has_updatePlayer_mono _ _ _ _ _ _ _ h22)))]
    rw [TournamentUI.accStats_updatePlayer _ _ _ _ _ _ _
      (TournamentUI.has_updatePlayer_mono _ _ _ _ _ _ _
        (TournamentUI.has_updatePlayer_mono _ _ _ _ _ _ _ h21))]
    rw [TournamentUI.accStats_updatePlayer _ _ _ _ _ _ _
      (TournamentUI.has_updatePlayer_mono _ _ _ _ _ _ _ h12)]
    rw [TournamentUI.accStats_updatePlayer _ _ _ _ _ _ _ h11]
    rw [TournamentUI.accStats_ensurePlayer, TournamentUI.accStats_ensurePlayer,
      TournamentUI.accStats_ensurePlayer, TournamentUI.accStats_ensurePlayer]
    simp only [add_assoc]

lemma TournamentUI.accStats_foldl (ms : List MatchRec)
    (acc : List (String × TournamentUI.PlayerAcc)) (p : String) :
    TournamentUI.accStats (ms.foldl TournamentUI.standingsStep acc) p =
      TournamentUI.accStats acc p + (ms.map (TournamentUI.contrib p)).sum := by
  induction ms generalizing acc with
  | nil => simp
  | cons m ms ih =>
    rw [List.foldl_cons, ih, TournamentUI.accStats_standingsStep, List.map_cons,
      List.sum_cons, add_assoc]

/-- Per-player stats of the accumulator map are the sum of per-match
contributions. -/
lemma TournamentUI.accStats_standingsAccum (ms : List MatchRec) (p : String) :
    TournamentUI.accStats (TournamentUI.standingsAccum ms) p =
      (ms.map (TournamentUI.contrib p)).sum := by
  rw [TournamentUI.standingsAccum, TournamentUI.accStats_foldl]
  have h0 : TournamentUI.accStats [] p = 0 := rfl
  rw [h0, zero_add]

/-- Invariant of the accumulator map: keys are distinct and each record's
stored name is its key. -/
def TournamentUI.AccInv (acc : List (String × TournamentUI.PlayerAcc)) : Prop :=
  (acc.map Prod.fst).Nodup ∧ ∀ q ∈ acc, (Prod.snd q).name = Prod.fst q

lemma TournamentUI.AccInv_ensurePlayer
    (acc : List (String × TournamentUI.PlayerAcc)) (q : String)
    (h : TournamentUI.AccInv acc) :
    TournamentUI.AccInv (TournamentUI.ensurePlayer acc q) := by
  rw [TournamentUI.ensurePlayer]
  by_cases hh : jsMapHas acc q = true
  · rw [if_pos hh]; exact h
  · rw [if_neg hh]
    have hq : q ∉ acc.map Prod.fst := by
      intro hmem
      exact hh (by rw [jsMapHas]; exact jsMapGet_isSome_of_mem_keys acc q hmem)
    constructor
    · rw [jsMapSet_keys_of_not_has _ _ _ (by simpa using hh)]
      simp [List.nodup_append, h.1, hq]
    · intro pr hpr
      rcases mem_jsMapSet _ _ _ _ hpr with hpr | hpr
      · exact h.2 pr hpr
      · rw [hpr]

lemma TournamentUI.AccInv_updatePlayer (mid : String) (my opp : ℕ) (won : Bool)
    (acc : List (String × TournamentUI.PlayerAcc)) (q : String)
    (h : TournamentUI.AccInv acc) :
    TournamentUI.AccInv (TournamentUI.updatePlayer mid my opp won acc q) := by
  cases ha : jsMapGet acc q with
  | none => simpa only [TournamentUI.updatePlayer, ha] using h
  | some a =>
    have hname : a.name = q := h.2 (q, a) (mem_of_jsMapGet_some acc q a ha)
    simp only [TournamentUI.updatePlayer, ha]
    constructor
    · rw [jsMapSet_keys_of_has _ _ _ (by rw [jsMapHas, ha]; rfl)]
      exact h.1
    · intro pr hpr
      rcases mem_jsMapSet _ _ _ _ hpr with hpr | hpr
      · exact h.2 pr hpr
      · rw [hpr]; exact hname

lemma TournamentUI.AccInv_ensure_foldl (names : List String)
    (acc : List (String × TournamentUI.PlayerAcc)) (h : TournamentUI.AccInv acc) :
    TournamentUI.AccInv (names.foldl TournamentUI.ensurePlayer acc) := by
  induction names generalizing acc with
  | nil => exact h
  | cons n ns ih =>
    rw [List.foldl_cons]
    exact ih _ (TournamentUI.AccInv_ensurePlayer acc n h)

lemma TournamentUI.AccInv_update_foldl (mid : String) (my opp : ℕ) (won : Bool)
    (names : List String) (acc : List (String × TournamentUI.PlayerAcc))
    (h : TournamentUI.AccInv acc) :
    TournamentUI.AccInv (names.foldl
      (TournamentUI.updatePlayer mid my opp won) acc) := by
  induction names generalizing acc with
  | nil => exact h
  | cons n ns ih =>
    rw [List.foldl_cons]
    exact ih _ (TournamentUI.AccInv_updatePlayer mid my opp won acc n h)

lemma TournamentUI.AccInv_standingsStep
    (acc : List (String × TournamentUI.PlayerAcc)) (m : MatchRec)
    (h : TournamentUI.AccInv acc) :
    TournamentUI.AccInv (TournamentUI.standingsStep acc m) := by
  rw [TournamentUI.standingsStep]
  by_cases hd : m.score.1 = m.score.2
  · rw [if_pos (by simpa using hd)]; exact h
  · rw [if_neg (by simpa using hd)]
    dsimp only
    exact TournamentUI.AccInv_update_foldl _ _ _ _ _ _
      (TournamentUI.AccInv_update_foldl _ _ _ _ _ _
        (TournamentUI.AccInv_ensure_foldl _ _ h))

lemma TournamentUI.AccInv_standingsAccum (ms : List MatchRec) :
    TournamentUI.AccInv (TournamentUI.standingsAccum ms) := by
  rw [TournamentUI.standingsAccum]
  have h0 : TournamentUI.AccInv ([] : List (String × TournamentUI.PlayerAcc)) :=
    ⟨by simp, by simp⟩
  generalize h0 = h
  revert h
  generalize ([] : List (String × TournamentUI.PlayerAcc)) = acc
  intro h
  induction ms generalizing acc with
  | nil => exact h
  | cons m ms ih =>
    rw [List.foldl_cons]
    exact ih _ (TournamentUI.AccInv_standingsStep acc m h)

lemma TournamentUI.rowStats_rows_eq
    (acc : List (String × TournamentUI.PlayerAcc))
    (hnames : ∀ q ∈ acc, (Prod.snd q).name = Prod.fst q) (p : String) :
    TournamentUI.rowStats ((acc.map Prod.snd).map TournamentUI.addBallsDiff) p =
      TournamentUI.accStats acc p := by
  induction acc with
  | nil => rfl
  | cons q acc ih =>
    have hq : (Prod.snd q).name = Prod.fst q := hnames q (List.mem_cons_self q acc)
    rw [List.map_cons, List.map_cons, TournamentUI.rowStats, List.find?_cons]
    by_cases hqp : q.1 = p
    · have hpred : ((TournamentUI.addBallsDiff q.2).name == p) = true := by
        show (q.2.name == p) = true
        simp [hq, hqp]
      rw [hpred]
      simp [TournamentUI.accStats, jsMapGet, TournamentUI.addBallsDiff, hqp]
    · have hpred : ((TournamentUI.addBallsDiff q.2).name == p) = false := by
        show (q.2.name == p) = false
        simp [hq, hqp]
      rw [hpred]
      have hskip : TournamentUI.accStats (q :: acc) p =
          TournamentUI.accStats acc p := by
        simp [TournamentUI.accStats, jsMapGet, hqp]
      rw [hskip]
      exact ih (fun r hr => hnames r (List.mem_cons_of_mem q hr))

lemma TournamentUI.standingsRows_all (ms : List MatchRec) :
    TournamentUI.standingsRows "all" ms =
      ((TournamentUI.standingsAccum ms).map Prod.snd).map
        TournamentUI.addBallsDiff := by
  rw [TournamentUI.standingsRows, List.filter_eq_self.mpr (fun x _ => by simp)]

lemma TournamentUI.rows_names (acc : List (String × TournamentUI.PlayerAcc))
    (hnames : ∀ q ∈ acc, (Prod.snd q).name = Prod.fst q) :
    ((acc.map Prod.snd).map TournamentUI.addBallsDiff).map
        (fun r => r.toPlayerAcc.name) = acc.map Prod.fst := by
  rw [List.map_map, List.map_map]
  exact List.map_congr_left hnames

lemma find?_perm_of_unique {α : Type} (pred : α → Bool) (l l' : List α)
    (hperm : l.Perm l')
    (huniq : ∀ x, x ∈ l → ∀ y, y ∈ l → pred x = true → pred y = true → x = y) :
    l.find? pred = l'.find? pred := by
  cases hf : l.find? pred with
  | none =>
    cases hf' : l'.find? pred with
    | none => rfl
    | some r =>
      have hm : r ∈ l := hperm.mem_iff.mpr (List.mem_of_find?_eq_some hf')
      have hp := List.find?_some hf'
      exact absurd hp (List.find?_eq_none.mp hf r hm)
  | some r =>
    have hm : r ∈ l := List.mem_of_find?_eq_some hf
    have hp1 := List.find?_some hf
    have hsome : (l'.find? pred).isSome = true := by
      rw [List.find?_isSome]
      exact ⟨r, hperm.mem_iff.mp hm, hp1⟩
    obtain ⟨r2, hf'⟩ := Option.isSome_iff_exists.mp hsome
    have hm2 : r2 ∈ l := hperm.mem_iff.mpr (List.mem_of_find?_eq_some hf')
    have hp2 := List.find?_some hf'
    rw [hf', huniq r hm r2 hm2 hp1 hp2]

lemma TournamentUI.rowStats_perm (l l2 : List TournamentUI.StandingRow)
    (hperm : l.Perm l2)
    (hnd : (l.map (fun r => r.toPlayerAcc.name)).Nodup) (p : String) :
    TournamentUI.rowStats l p = TournamentUI.rowStats l2 p := by
  rw [TournamentUI.rowStats, TournamentUI.rowStats,
    find?_perm_of_unique _ l l2 hperm (fun x hx y hy hpx hpy =>
      List.inj_on_of_nodup_map hnd hx hy (by
        have ex : x.toPlayerAcc.name = p := by simpa using hpx
        have ey : y.toPlayerAcc.name = p := by simpa using hpy
        simpa using ex.trans ey.symm))]

def exampleMatch2 : MatchRec :=
  { id := "m2", date := "2025-01-25", team1 := ("E", "F"), team2 := ("G", "H"),
    score := (22, 20), winner := 1 }

/-- The per-player numeric stats read off a standings table equal the sum of
per-match contributions, independently of the sort. -/
lemma TournamentUI.rowStats_calculateStandings (ms : List MatchRec) (p : String) :
    TournamentUI.rowStats (TournamentUI.calculateStandings "all" ms) p =
      (ms.map (TournamentUI.contrib p)).sum := by
  have hinv := TournamentUI.AccInv_standingsAccum ms
  have hrows := TournamentUI.standingsRows_all ms
  have hnames := TournamentUI.rows_names _ hinv.2
  have hnd_rows : ((TournamentUI.standingsRows "all" ms).map
      (fun r => r.toPlayerAcc.name)).Nodup := by
    rw [hrows, hnames]
    exact hinv.1
  have hnd_sorted : ((List.insertionSort TournamentUI.standingsLe
      (TournamentUI.standingsRows "all" ms)).map
        (fun r => r.toPlayerAcc.name)).Nodup :=
    (((List.perm_insertionSort TournamentUI.standingsLe
      (TournamentUI.standingsRows "all" ms)).map _).nodup_iff).mpr hnd_rows
  rw [TournamentUI.calculateStandings,
    TournamentUI.rowStats_perm _ _
      (List.perm_insertionSort TournamentUI.standingsLe
        (TournamentUI.standingsRows "all" ms)) hnd_sorted p,
    hrows, TournamentUI.rowStats_rows_eq _ hinv.2 p,
    TournamentUI.accStats_standingsAccum]

/-- C6: the standings aggregation is a monoid over matches. For every split of
the match list into two sublists, every player's numeric accumulators (games,
wins, losses, italianPoints, balls for, balls against) read off the standings
of the concatenation equal the field-wise sum of the accumulators read off the
standings of the two sublists; consequently these numeric accumulators are
invariant under any permutation of the match list. -/
theorem c6_standings_monoid :
    (∀ ms1 ms2 : List MatchRec, ∀ p : String,
      TournamentUI.rowStats (TournamentUI.calculateStandings "all"
          (ms1 ++ ms2)) p =
        TournamentUI.rowStats (TournamentUI.calculateStandings "all" ms1) p +
          TournamentUI.rowStats (TournamentUI.calculateStandings "all" ms2) p) ∧
    (∀ ms ms2 : List MatchRec, ms.Perm ms2 → ∀ p : String,
      TournamentUI.rowStats (TournamentUI.calculateStandings "all" ms) p =
        TournamentUI.rowStats (TournamentUI.calculateStandings "all" ms2) p) := by
  constructor
  · intro ms1 ms2 p
    rw [TournamentUI.rowStats_calculateStandings,
      TournamentUI.rowStats_calculateStandings,
      TournamentUI.rowStats_calculateStandings, List.map_append, List.sum_append]
  · intro ms ms2 hperm p
    rw [TournamentUI.rowStats_calculateStandings,
      TournamentUI.rowStats_calculateStandings]
    exact List.Perm.sum_eq (hperm.map (TournamentUI.contrib p))

/-- Witness for C6: a concrete two-match permutation (the swap of two matches)
leaves player A's standings stats unchanged. -/
theorem c6_standings_monoid_witness :
    TournamentUI.rowStats (TournamentUI.calculateStandings "all"
        [exampleMatch, exampleMatch2]) "A" =
      TournamentUI.rowStats (TournamentUI.calculateStandings "all"
        [exampleMatch2, exampleMatch]) "A" :=
  c6_standings_monoid.2 [exampleMatch, exampleMatch2]
    [exampleMatch2, exampleMatch]
    (List.Perm.swap exampleMatch2 exampleMatch []) "A"

/-! ## Claim C5: sort order, stability and encounter order of the standings -/

lemma TournamentUI.standingsLe_iff (a b : TournamentUI.StandingRow) :
    TournamentUI.standingsLe a b ↔
      (b.italianPoints < a.italianPoints ∨
        (b.italianPoints = a.italianPoints ∧ b.ballsDiff ≤ a.ballsDiff)) := by
  rw [TournamentUI.standingsLe, TournamentUI.standingsCmp]
  by_cases h : b.italianPoints = a.italianPoints
  · rw [if_neg (not_not_intro h)]
    omega
  · rw [if_pos h]
    omega

instance : IsTotal TournamentUI.StandingRow TournamentUI.standingsLe := by
  constructor
  intro a b
  rw [TournamentUI.standingsLe_iff, TournamentUI.standingsLe_iff]
  omega

instance : IsTrans TournamentUI.StandingRow TournamentUI.standingsLe := by
  constructor
  intro a b c hab hbc
  rw [TournamentUI.standingsLe_iff] at hab hbc ⊢
  omega

/-- Spec-side definition: the first-encounter fold over one match's
participants (draws skipped, duplicates kept once, first occurrence first). -/
def TournamentUI.encounterStep (ks : List String) (m : MatchRec) : List String :=
  if m.score.1 = m.score.2 then ks
  else [m.team1.1, m.team1.2, m.team2.1, m.team2.2].foldl
    (fun ks2 n => if n ∈ ks2 then ks2 else ks2 ++ [n]) ks

/-- Spec-side definition: the order in which players are first encountered
over the match list. -/
def TournamentUI.encounterOrder (ms : List MatchRec) : List String :=
  ms.foldl TournamentUI.encounterStep []

lemma jsMapHas_iff_mem_keys {α : Type} (m : List (String × α)) (k : String) :
    jsMapHas m k = true ↔ k ∈ m.map Prod.fst := by
  constructor
  · intro h
    rw [jsMapHas] at h
    obtain ⟨v, hv⟩ := Option.isSome_iff_exists.mp h
    exact List.mem_map.mpr ⟨(k, v), mem_of_jsMapGet_some m k v hv, rfl⟩
  · exact jsMapGet_isSome_of_mem_keys m k

lemma TournamentUI.ensurePlayer_keys
    (acc : List (String × TournamentUI.PlayerAcc)) (q : String) :
    (TournamentUI.ensurePlayer acc q).map Prod.fst =
      if q ∈ acc.map Prod.fst then acc.map Prod.fst
      else acc.map Prod.fst ++ [q] := by
  rw [TournamentUI.ensurePlayer]
  by_cases h : q ∈ acc.map Prod.fst
  · rw [if_pos ((jsMapHas_iff_mem_keys acc q).mpr h), if_pos h]
  · have hh : jsMapHas acc q = false := by
      cases hb : jsMapHas acc q with
      | false => rfl
      | true => exact absurd ((jsMapHas_iff_mem_keys acc q).mp hb) h
    rw [if_neg (by simp [hh]), if_neg h]
    exact jsMapSet_keys_of_not_has acc q _ hh

lemma TournamentUI.updatePlayer_keys (mid : String) (my opp : ℕ) (won : Bool)
    (acc : List (String × TournamentUI.PlayerAcc)) (q : String) :
    (TournamentUI.updatePlayer mid my opp won acc q).map Prod.fst =
      acc.map Prod.fst := by
  cases ha : jsMapGet acc q with
  | none => simp only [TournamentUI.updatePlayer, ha]
  | some a =>
    simp only [TournamentUI.updatePlayer, ha]
    exact jsMapSet_keys_of_has acc q _ (by rw [jsMapHas, ha]; rfl)

lemma TournamentUI.update_foldl_keys (mid : String) (my opp : ℕ) (won : Bool)
    (names : List String) (acc : List (String × TournamentUI.PlayerAcc)) :
    ((names.foldl (TournamentUI.updatePlayer mid my opp won) acc)).map Prod.fst =
      acc.map Prod.fst := by
  induction names generalizing acc with
  | nil => rfl
  | cons n ns ih =>
    rw [List.foldl_cons, ih, TournamentUI.updatePlayer_keys]

lemma TournamentUI.ensure_foldl_keys (names : List String)
    (acc : List (String × TournamentUI.PlayerAcc)) :
    ((names.foldl TournamentUI.ensurePlayer acc)).map Prod.fst =
      names.foldl (fun ks2 n => if n ∈ ks2 then ks2 else ks2 ++ [n])
        (acc.map Prod.fst) := by
  induction names generalizing acc with
  | nil => rfl
  | cons n ns ih =>
    rw [List.foldl_cons, List.foldl_cons, ih, TournamentUI.ensurePlayer_keys]

lemma TournamentUI.standingsStep_keys
    (acc : List (String × TournamentUI.PlayerAcc)) (m : MatchRec) :
    (TournamentUI.standingsStep acc m).map Prod.fst =
      TournamentUI.encounterStep (acc.map Prod.fst) m := by
  rw [TournamentUI.standingsStep, TournamentUI.encounterStep]
  by_cases hd : m.score.1 = m.score.2
  · rw [if_pos (by simpa using hd), if_pos hd]
  · rw [if_neg (by simpa using hd), if_neg hd]
    dsimp only
    rw [TournamentUI.update_foldl_keys, TournamentUI.update_foldl_keys,
      TournamentUI.ensure_foldl_keys]

lemma TournamentUI.standingsAccum_keys (ms : List MatchRec) :
    (TournamentUI.standingsAccum ms).map Prod.fst =
      TournamentUI.encounterOrder ms := by
  rw [TournamentUI.standingsAccum, TournamentUI.encounterOrder]
  have key : ∀ acc : List (String × TournamentUI.PlayerAcc),
      (ms.foldl TournamentUI.standingsStep acc).map Prod.fst =
        ms.foldl TournamentUI.encounterStep (acc.map Prod.fst) := by
    induction ms with
    | nil => intro acc; rfl
    | cons m ms ih =>
      intro acc
      rw [List.foldl_cons, List.foldl_cons, ih, TournamentUI.standingsStep_keys]
  exact key []

/-- Rows all related by the order: the filter by any key-constant predicate is
unchanged by the sort (stability of insertion sort). -/
lemma TournamentUI.filter_calculateStandings (ms : List MatchRec)
    (f : TournamentUI.StandingRow → Bool)
    (hkey : ∀ x, f x = true → ∀ y, f y = true → TournamentUI.standingsLe x y) :
    (TournamentUI.calculateStandings "all" ms).filter f =
      (TournamentUI.standingsRows "all" ms).filter f := by
  have hpair : ((TournamentUI.standingsRows "all" ms).filter f).Pairwise
      TournamentUI.standingsLe := by
    apply List.pairwise_of_forall_mem_list
    intro x hx y hy
    exact hkey x (List.mem_filter.mp hx).2 y (List.mem_filter.mp hy).2
  have hsub : List.Sublist ((TournamentUI.standingsRows "all" ms).filter f)
      (TournamentUI.calculateStandings "all" ms) := by
    rw [TournamentUI.calculateStandings]
    exact List.sublist_insertionSort hpair (List.filter_sublist _)
  have hff : ((TournamentUI.standingsRows "all" ms).filter f).filter f =
      (TournamentUI.standingsRows "all" ms).filter f :=
    List.filter_eq_self.mpr (fun a ha => (List.mem_filter.mp ha).2)
  have hsub3 : List.Sublist ((TournamentUI.standingsRows "all" ms).filter f)
      ((TournamentUI.calculateStandings "all" ms).filter f) :=
    hff ▸ hsub.filter f
  have hlen : ((TournamentUI.calculateStandings "all" ms).filter f).length =
      ((TournamentUI.standingsRows "all" ms).filter f).length :=
    ((List.perm_insertionSort TournamentUI.standingsLe
      (TournamentUI.standingsRows "all" ms)).filter f).length_eq
  exact (hsub3.eq_of_length hlen.symm).symm

/-- C5: with the gender filter 'all' and no drawn matches, the standings list
is pairwise ordered descending lexicographically by (italianPoints, ballsDiff);
rows equal on both keys keep their pre-sort relative order (the filter by any
concrete key pair is unchanged by the sort); and the pre-sort row order is the
order in which players are first encountered in the match list, so the 1-based
position in the sorted list is the rank. -/
theorem c5_standings_order (ms : List MatchRec)
    (_hnd : ∀ m ∈ ms, m.score.1 ≠ m.score.2) :
    ((TournamentUI.calculateStandings "all" ms).Pairwise
      (fun a b => b.italianPoints < a.italianPoints ∨
        (a.italianPoints = b.italianPoints ∧ b.ballsDiff ≤ a.ballsDiff))) ∧
    (∀ ip : ℕ, ∀ d : ℤ,
      (TournamentUI.calculateStandings "all" ms).filter
          (fun r => r.italianPoints == ip && r.ballsDiff == d) =
        (TournamentUI.standingsRows "all" ms).filter
          (fun r => r.italianPoints == ip && r.ballsDiff == d)) ∧
    ((TournamentUI.standingsRows "all" ms).map (fun r => r.toPlayerAcc.name) =
      TournamentUI.encounterOrder ms) := by
  refine ⟨?_, ?_, ?_⟩
  · have hs := List.sorted_insertionSort TournamentUI.standingsLe
      (TournamentUI.standingsRows "all" ms)
    rw [TournamentUI.calculateStandings]
    exact hs.imp (fun hab => ((TournamentUI.standingsLe_iff _ _).mp hab).imp
      id (fun h => ⟨h.1.symm, h.2⟩))
  · intro ip d
    apply TournamentUI.filter_calculateStandings
    intro x hx y hy
    simp only [Bool.and_eq_true, beq_iff_eq] at hx hy
    rw [TournamentUI.standingsLe_iff]
    omega
  · rw [TournamentUI.standingsRows_all,
      TournamentUI.rows_names _ (TournamentUI.AccInv_standingsAccum ms).2,
      TournamentUI.standingsAccum_keys]

/-- Witness for C5 at a concrete draw-free match list. -/
theorem c5_standings_order_witness :
    (∀ m ∈ [exampleMatch], m.score.1 ≠ m.score.2) ∧
    ((TournamentUI.standingsRows "all" [exampleMatch]).map
        (fun r => r.toPlayerAcc.name) =
      TournamentUI.encounterOrder [exampleMatch]) :=
  ⟨by decide, (c5_standings_order [exampleMatch] (by decide)).2.2⟩
